import Mathlib

/-!
Verification of the axconfig-gen configuration type engine.

This file embeds the core data model and algorithms of the repository:

* `ConfigType` and its text parser (`src/ty.rs`),
* values, validity, numeric-string recognition, type matching and type
  inference (`src/value.rs`),
* the configuration directory with its merge / update reconciliation
  (`src/config.rs`),
* the output writer's per-item rendering (`axconfig-gen/src/output.rs`).

Rust `BTreeMap`s are modelled as association lists ordered by insertion
through `insertBTree` (sorted insert); machine integers (`i64` values inside
TOML integers, `usize` in numeric-string parsing) are modelled as `Int`/`Nat`
with explicit range checks where the source's semantics depend on them.
-/

set_option maxRecDepth 10000

/-- The supported types in the config file (`ConfigType` in `src/ty.rs`). -/
inductive ConfigType where
  | bool
  | int
  | uint
  | string
  | tuple (items : List ConfigType)
  | array (elem : ConfigType)
  | unknown

/-- Error type (`ConfigErr` in `src/lib.rs`).  The `Parse` variant carries an
external `TomlError` and is never produced by the operations modelled here,
so it is omitted. -/
inductive ConfigErr where
  | invalidValue
  | invalidType
  | valueTypeMismatch
  | other (msg : String)
  deriving DecidableEq

/-- A TOML value as far as the core handles it: the four supported kinds,
plus `other` standing for every unsupported `toml_edit::Value` variant
(float, datetime, inline table).  Integers are `i64` in the source; no
arithmetic is performed on them, so `Int` is a faithful model. -/
inductive Value where
  | bool (b : Bool)
  | int (i : Int)
  | str (s : String)
  | arr (elems : List Value)
  | other

mutual

def ConfigType.beq : ConfigType → ConfigType → Bool
  | .bool, .bool => true
  | .int, .int => true
  | .uint, .uint => true
  | .string, .string => true
  | .tuple xs, .tuple ys => ConfigType.beqList xs ys
  | .array x, .array y => ConfigType.beq x y
  | .unknown, .unknown => true
  | _, _ => false

def ConfigType.beqList : List ConfigType → List ConfigType → Bool
  | [], [] => true
  | x :: xs, y :: ys => ConfigType.beq x y && ConfigType.beqList xs ys
  | _, _ => false

end

mutual

theorem ConfigType.beq_refl : ∀ a, ConfigType.beq a a = true
  | .bool => rfl
  | .int => rfl
  | .uint => rfl
  | .string => rfl
  | .tuple xs => by simp [ConfigType.beq, ConfigType.beqList_refl xs]
  | .array x => by simp [ConfigType.beq, ConfigType.beq_refl x]
  | .unknown => rfl

theorem ConfigType.beqList_refl : ∀ xs, ConfigType.beqList xs xs = true
  | [] => rfl
  | x :: xs => by
      simp [ConfigType.beqList, ConfigType.beq_refl x, ConfigType.beqList_refl xs]

end

mutual

theorem ConfigType.eq_of_beq : ∀ a b, ConfigType.beq a b = true → a = b
  | .bool, b => by cases b <;> simp [ConfigType.beq]
  | .int, b => by cases b <;> simp [ConfigType.beq]
  | .uint, b => by cases b <;> simp [ConfigType.beq]
  | .string, b => by cases b <;> simp [ConfigType.beq]
  | .tuple xs, b => by
      cases b <;> simp [ConfigType.beq]
      exact ConfigType.eqList_of_beqList xs _
  | .array x, b => by
      cases b <;> simp [ConfigType.beq]
      exact ConfigType.eq_of_beq x _
  | .unknown, b => by cases b <;> simp [ConfigType.beq]

theorem ConfigType.eqList_of_beqList :
    ∀ xs ys, ConfigType.beqList xs ys = true → xs = ys
  | [], ys => by cases ys <;> simp [ConfigType.beqList]
  | x :: xs, ys => by
      cases ys with
      | nil => simp [ConfigType.beqList]
      | cons y ys =>
          simp only [ConfigType.beqList, Bool.and_eq_true, List.cons.injEq]
          exact fun ⟨h1, h2⟩ =>
            ⟨ConfigType.eq_of_beq x y h1, ConfigType.eqList_of_beqList xs ys h2⟩

end

instance : DecidableEq ConfigType := fun a b =>
  decidable_of_iff (ConfigType.beq a b = true)
    ⟨ConfigType.eq_of_beq a b, fun h => h ▸ ConfigType.beq_refl a⟩

mutual

def Value.beq : Value → Value → Bool
  | .bool a, .bool b => a == b
  | .int a, .int b => a == b
  | .str a, .str b => a == b
  | .arr xs, .arr ys => Value.beqList xs ys
  | .other, .other => true
  | _, _ => false

def Value.beqList : List Value → List Value → Bool
  | [], [] => true
  | x :: xs, y :: ys => Value.beq x y && Value.beqList xs ys
  | _, _ => false

end

mutual

theorem Value.beqv_refl : ∀ a, Value.beq a a = true
  | .bool a => by simp [Value.beq]
  | .int a => by simp [Value.beq]
  | .str a => by simp [Value.beq]
  | .arr xs => by simp [Value.beq, Value.beqvList_refl xs]
  | .other => rfl

theorem Value.beqvList_refl : ∀ xs, Value.beqList xs xs = true
  | [] => rfl
  | x :: xs => by
      simp [Value.beqList, Value.beqv_refl x, Value.beqvList_refl xs]

end

mutual

theorem Value.eq_of_beqv : ∀ a b, Value.beq a b = true → a = b
  | .bool a, b => by cases b <;> simp [Value.beq]
  | .int a, b => by cases b <;> simp [Value.beq]
  | .str a, b => by cases b <;> simp [Value.beq]
  | .arr xs, b => by
      cases b <;> simp [Value.beq]
      exact Value.eqvList_of_beqvList xs _
  | .other, b => by cases b <;> simp [Value.beq]

theorem Value.eqvList_of_beqvList : ∀ xs ys, Value.beqList xs ys = true → xs = ys
  | [], ys => by cases ys <;> simp [Value.beqList]
  | x :: xs, ys => by
      cases ys with
      | nil => simp [Value.beqList]
      | cons y ys =>
          simp only [Value.beqList, Bool.and_eq_true, List.cons.injEq]
          exact fun ⟨h1, h2⟩ =>
            ⟨Value.eq_of_beqv x y h1, Value.eqvList_of_beqvList xs ys h2⟩

end

instance : DecidableEq Value := fun a b =>
  decidable_of_iff (Value.beq a b = true)
    ⟨Value.eq_of_beqv a b, fun h => h ▸ Value.beqv_refl a⟩

/-! ## Numeric-string recognition (`is_num` in `src/value.rs`) -/

/-- `char::to_digit` from Rust: digit value of a character, if it is an
ASCII digit or letter. -/
def char_to_digit (c : Char) : Option Nat :=
  if '0' ≤ c ∧ c ≤ '9' then some (c.toNat - '0'.toNat)
  else if 'a' ≤ c ∧ c ≤ 'z' then some (c.toNat - 'a'.toNat + 10)
  else if 'A' ≤ c ∧ c ≤ 'Z' then some (c.toNat - 'A'.toNat + 10)
  else none

/-- Numeric value of a digit string in the given radix. -/
def digitsVal (radix : Nat) (ds : List Char) : Nat :=
  ds.foldl (fun acc c => acc * radix + (char_to_digit c).getD 0) 0

/-- `usize::from_str_radix(s, radix).is_ok()`: an optional leading `+`, then
one or more digits valid for `radix`, with the value fitting in `usize`
(64-bit; the source errors on overflow while accumulating, which is
equivalent to this final range check). -/
def from_str_radix_ok (radix : Nat) (s : List Char) : Bool :=
  let ds := match s with
    | '+' :: rest => rest
    | _ => s
  !ds.isEmpty &&
    ds.all (fun c => match char_to_digit c with
      | some d => decide (d < radix)
      | none => false) &&
    decide (digitsVal radix ds < 2 ^ 64)

/-- `is_num` from `src/value.rs`: lower-case, drop `_` separators, then
accept a plain decimal or a `0x`/`0b`/`0o` prefixed non-negative integer.
`Char.toLower` is ASCII-only while Rust's `to_lowercase` is Unicode-aware;
the difference is immaterial for digit/prefix recognition. -/
def is_num (s : String) : Bool :=
  let l := (s.data.map Char.toLower).filter (fun c => c ≠ '_')
  match l with
  | '0' :: 'x' :: rest => from_str_radix_ok 16 rest
  | '0' :: 'b' :: rest => from_str_radix_ok 2 rest
  | '0' :: 'o' :: rest => from_str_radix_ok 8 rest
  | _ => from_str_radix_ok 10 l

/-! ## Value validity, type matching, type inference (`src/value.rs`) -/

mutual

/-- `value_is_valid` from `src/value.rs`. -/
def value_is_valid : Value → Bool
  | .bool _ => true
  | .int _ => true
  | .str _ => true
  | .arr l => value_list_is_valid l
  | .other => false

/-- The loop over array elements inside `value_is_valid`. -/
def value_list_is_valid : List Value → Bool
  | [] => true
  | e :: es => value_is_valid e && value_list_is_valid es

end

mutual

/-- `value_type_matches` from `src/value.rs`. -/
def value_type_matches : Value → ConfigType → Bool
  | .bool _, .bool => true
  | .int _, .int => true
  | .int _, .uint => true
  | .str s, ty =>
      if is_num s then
        ty = ConfigType.int ∨ ty = ConfigType.uint ∨ ty = ConfigType.string
      else ty = ConfigType.string
  | .arr l, .tuple ts => l.length = ts.length && tuple_elems_match l ts
  | .arr l, .array t => array_elems_match l t
  | _, _ => false

/-- Pairwise element matching for `(Value::Array, ConfigType::Tuple)`
(the zipped loop in the source; combined with the length check above it is
the source's "same length and each element matches"). -/
def tuple_elems_match : List Value → List ConfigType → Bool
  | [], [] => true
  | e :: es, t :: ts => value_type_matches e t && tuple_elems_match es ts
  | _, _ => false

/-- Element matching for `(Value::Array, ConfigType::Array)`. -/
def array_elems_match : List Value → ConfigType → Bool
  | [], _ => true
  | e :: es, t => value_type_matches e t && array_elems_match es t

end

/-- The scan over collected element types inside `inferred_type`'s array
case: `none` models the early `return Ok(Unknown)` on an `Unknown` element,
`some b` the loop running to completion (or `break`ing) with `all_same = b`.
The `break` on the first non-equal element exits before later elements are
checked for `Unknown`, exactly as in the source. -/
def infer_scan : List ConfigType → ConfigType → Option Bool
  | [], _ => some true
  | t :: rest, t0 =>
      if t = ConfigType.unknown then none
      else if t = t0 then infer_scan rest t0
      else some false

mutual

/-- `inferred_type` from `src/value.rs`. -/
def inferred_type : Value → Except ConfigErr ConfigType
  | .bool _ => .ok .bool
  | .int i => if i < 0 then .ok .int else .ok .uint
  | .str s => if is_num s then .ok .uint else .ok .string
  | .arr l =>
      match inferred_type_list l with
      | .error e => .error e
      | .ok types =>
          match types with
          | [] => .ok .unknown
          | t0 :: _ =>
              match infer_scan types t0 with
              | none => .ok .unknown
              | some true => .ok (.array t0)
              | some false => .ok (.tuple types)
  | .other => .error .invalidValue

/-- `arr.iter().map(inferred_type).collect::<ConfigResult<Vec<_>>>()`. -/
def inferred_type_list : List Value → Except ConfigErr (List ConfigType)
  | [] => .ok []
  | e :: es =>
      match inferred_type e with
      | .error err => .error err
      | .ok t =>
          match inferred_type_list es with
          | .error err => .error err
          | .ok ts => .ok (t :: ts)

end

instance {ε α : Type} [DecidableEq ε] [DecidableEq α] :
    DecidableEq (Except ε α) := fun a b =>
  match a, b with
  | .ok x, .ok y =>
      if h : x = y then isTrue (by rw [h]) else isFalse (by simp [h])
  | .error x, .error y =>
      if h : x = y then isTrue (by rw [h]) else isFalse (by simp [h])
  | .ok _, .error _ => isFalse (by simp)
  | .error _, .ok _ => isFalse (by simp)

example : inferred_type (.arr [.int 1, .int 2, .int 3]) = .ok (.array .uint) := by
  decide

example :
    inferred_type (.arr [.str "0", .str "a", .bool true, .int (-2)]) =
      .ok (.tuple [.uint, .string, .bool, .int]) := by
  decide

example : inferred_type (.arr []) = .ok .unknown := by decide

example : inferred_type (.arr [.arr []]) = .ok .unknown := by decide

example : is_num "0xdead_beef" = true := by decide

example : is_num "0xx233" = false := by decide

example : is_num "" = false := by decide

example : is_num "0xffff_ffff_ffff_ffff" = true := by decide

example : value_type_matches (.int (-2333)) .uint = true := by decide

example : value_type_matches (.arr [.arr []]) (.array (.tuple [])) = true := by
  decide

/-! ## Type-expression parsing (`ConfigType::new` and `split_tuple_items`
in `src/ty.rs`) -/

/-- The scanning loop of `split_tuple_items`: `cur` accumulates (reversed)
the characters of the item being scanned since the last depth-0 comma,
`acc` the (reversed) earlier items; `lvl` is the parenthesis nesting level.
A depth-0 comma with an empty current item, an unbalanced closing
parenthesis (`level < 0`), a nonzero final level, or an empty final item
yield `None`, as in the source. -/
def splitGo : List Char → Nat → List Char → List (List Char) →
    Option (List (List Char))
  | [], lvl, cur, acc =>
      if lvl = 0 ∧ cur ≠ [] then some ((cur.reverse :: acc).reverse) else none
  | c :: rest, lvl, cur, acc =>
      if c = '(' then splitGo rest (lvl + 1) (c :: cur) acc
      else if c = ')' then
        if lvl = 0 then none else splitGo rest (lvl - 1) (c :: cur) acc
      else if c = ',' ∧ lvl = 0 then
        if cur = [] then none else splitGo rest 0 [] (cur.reverse :: acc)
      else splitGo rest lvl (c :: cur) acc

/-- `split_tuple_items` from `src/ty.rs`. -/
def split_tuple_items (s : List Char) : Option (List (List Char)) :=
  splitGo s 0 [] []

/-- Total length of a list of items; used for the termination measure of
`ConfigType.new`. -/
def sumLen (ls : List (List Char)) : Nat := (ls.map List.length).sum

theorem splitGo_bound : ∀ (s : List Char) (lvl : Nat) (cur : List Char)
    (acc : List (List Char)) (items : List (List Char)),
    splitGo s lvl cur acc = some items →
    sumLen items + items.length ≤
      s.length + cur.length + 1 + sumLen acc + acc.length
  | [], lvl, cur, acc, items => by
      simp only [splitGo]
      split_ifs with h1
      · rintro ⟨rfl⟩
        simp [sumLen, List.sum_reverse]
        omega
      · intro h; cases h
  | c :: rest, lvl, cur, acc, items => by
      simp only [splitGo]
      split_ifs with h1 h2 h3 h4 h5 <;> intro h
      · have := splitGo_bound rest (lvl + 1) (c :: cur) acc items h
        simp [sumLen] at this ⊢
        omega
      · cases h
      · have := splitGo_bound rest (lvl - 1) (c :: cur) acc items h
        simp [sumLen] at this ⊢
        omega
      · cases h
      · have := splitGo_bound rest 0 [] (cur.reverse :: acc) items h
        simp [sumLen] at this ⊢
        omega
      · have := splitGo_bound rest lvl (c :: cur) acc items h
        simp [sumLen] at this ⊢
        omega

theorem split_tuple_items_bound {s : List Char} {items : List (List Char)}
    (h : split_tuple_items s = some items) :
    sumLen items + items.length ≤ s.length + 1 := by
  have hb := splitGo_bound s 0 [] [] items h
  simp [sumLen] at hb ⊢
  omega

theorem two_le_length_of_head_last {t : List Char} {a b : Char}
    (hh : t.head? = some a) (hl : t.getLast? = some b) (hab : a ≠ b) :
    2 ≤ t.length := by
  rcases t with _ | ⟨x, _ | ⟨y, rest⟩⟩
  · simp at hh
  · simp_all
  · simp only [List.length_cons]
    omega

/-- `ty.replace(" ", "")`: removes every space character. -/
def stripSpaces (l : List Char) : List Char := l.filter (fun c => c ≠ ' ')

mutual

/-- `ConfigType::new` from `src/ty.rs` (the `#[cfg(test)]` handling of `"?"`
is test-only and not part of the library semantics).  Operates on the
character list of the type string. -/
def ConfigType.new (l : List Char) : Except ConfigErr ConfigType :=
  if stripSpaces l = "bool".data then .ok .bool
  else if stripSpaces l = "int".data then .ok .int
  else if stripSpaces l = "uint".data then .ok .uint
  else if stripSpaces l = "str".data then .ok .string
  else if hh : (stripSpaces l).head? = some '(' then
    if hl : (stripSpaces l).getLast? = some ')' then
      if ((stripSpaces l).drop 1).dropLast = [] then .ok (.tuple [])
      else
        match hs : split_tuple_items (((stripSpaces l).drop 1).dropLast) with
        | none => .error .invalidType
        | some items => (ConfigType.newList items).map .tuple
    else .error .invalidType
  else if hh2 : (stripSpaces l).head? = some '[' then
    if hl2 : (stripSpaces l).getLast? = some ']' then
      if ((stripSpaces l).drop 1).dropLast = [] then .error .invalidType
      else (ConfigType.new (((stripSpaces l).drop 1).dropLast)).map .array
    else .error .invalidType
  else .error .invalidType
  termination_by l.length
  decreasing_by
    · have hb := split_tuple_items_bound hs
      have h1 : (stripSpaces l).length ≤ l.length := List.length_filter_le _ _
      have h4 : 2 ≤ (stripSpaces l).length :=
        two_le_length_of_head_last hh hl (by decide)
      have h5 : (((stripSpaces l).drop 1).dropLast).length =
          (stripSpaces l).length - 1 - 1 := by
        simp [List.length_dropLast]
      omega
    · have h1 : (stripSpaces l).length ≤ l.length := List.length_filter_le _ _
      have h4 : 2 ≤ (stripSpaces l).length :=
        two_le_length_of_head_last hh2 hl2 (by decide)
      have h5 : (((stripSpaces l).drop 1).dropLast).length =
          (stripSpaces l).length - 1 - 1 := by
        simp [List.length_dropLast]
      omega

/-- `items.into_iter().map(Self::new).collect::<ConfigResult<Vec<_>>>()`
inside the tuple branch of `ConfigType::new`. -/
def ConfigType.newList (ls : List (List Char)) :
    Except ConfigErr (List ConfigType) :=
  match ls with
  | [] => .ok []
  | it :: rest =>
      match ConfigType.new it with
      | .error e => .error e
      | .ok ty =>
          match ConfigType.newList rest with
          | .error e => .error e
          | .ok tys => .ok (ty :: tys)
  termination_by sumLen ls + ls.length
  decreasing_by
    · simp [sumLen]
      omega
    · simp [sumLen]
      omega

end

example : ConfigType.new "(int, str)".data = .ok (.tuple [.int, .string]) := by
  rw [ConfigType.new]
  simp [stripSpaces, split_tuple_items, splitGo]
  rw [ConfigType.newList]
  rw [ConfigType.new]
  simp [stripSpaces]
  rw [ConfigType.newList]
  rw [ConfigType.new]
  simp [stripSpaces, ConfigType.newList, Except.map]

example : ConfigType.new "((),())".data = .ok (.tuple [.tuple [], .tuple []]) := by
  rw [ConfigType.new]
  simp [stripSpaces, split_tuple_items, splitGo]
  rw [ConfigType.newList]
  rw [ConfigType.new]
  simp [stripSpaces]
  rw [ConfigType.newList]
  rw [ConfigType.new]
  simp [stripSpaces, ConfigType.newList, Except.map]

example : ConfigType.new "()()".data = .error .invalidType := by
  rw [ConfigType.new]
  simp [stripSpaces, split_tuple_items, splitGo]

/-! ## Configuration directory (`src/config.rs`) -/

/-- `ConfigValue` from `src/value.rs`: a raw TOML value plus an optional
declared type. -/
structure ConfigValue where
  value : Value
  ty : Option ConfigType
  deriving DecidableEq

/-- `ConfigValue::new_with_value_type` (called `from_raw_value_type` at its
use sites in `src/config.rs`): validity check, then type match, then wrap
with the declared type. -/
def ConfigValue.new_with_value_type (v : Value) (ty : ConfigType) :
    Except ConfigErr ConfigValue :=
  if value_is_valid v = false then .error .invalidValue
  else if value_type_matches v ty then .ok ⟨v, some ty⟩
  else .error .valueTypeMismatch

/-- `ConfigItem` from `src/config.rs`: key, value, comments. -/
structure ConfigItem where
  key : String
  value : ConfigValue
  comments : String
  deriving DecidableEq

/-- A `BTreeMap<String, ConfigItem>` modelled as an association list whose
entries are kept in strictly increasing key order by `insertBTree`. -/
abbrev ConfigTable := List (String × ConfigItem)

/-- First-match association lookup (`BTreeMap::get`). -/
def lookupKey {α : Type} : List (String × α) → String → Option α
  | [], _ => none
  | (k', v) :: rest, k => if k' = k then some v else lookupKey rest k

/-- `BTreeMap::contains_key`. -/
def containsKey {α : Type} (m : List (String × α)) (k : String) : Bool :=
  (lookupKey m k).isSome

/-- Lexicographic character-list comparison. -/
def charsLt : List Char → List Char → Bool
  | [], [] => false
  | [], _ :: _ => true
  | _ :: _, [] => false
  | c :: cs, d :: ds =>
      if c.toNat < d.toNat then true
      else if d.toNat < c.toNat then false
      else charsLt cs ds

/-- String ordering used by the `BTreeMap` model: lexicographic by code
point, which coincides with Rust's byte-wise `String` ordering on ASCII
keys. -/
def strLt (a b : String) : Bool := charsLt a.data b.data

/-- `BTreeMap::insert` on the sorted association list: place the new entry
at its ordered position, replacing an existing entry with the same key. -/
def insertBTree {α : Type} (k : String) (v : α) :
    List (String × α) → List (String × α)
  | [] => [(k, v)]
  | (k', v') :: rest =>
      if strLt k k' then (k, v) :: (k', v') :: rest
      else if k = k' then (k, v) :: rest
      else (k', v') :: insertBTree k v rest

/-- In-place modification of the entry at `k` (`BTreeMap::get_mut` followed
by assignment): replaces the first entry with key `k`, leaves the rest. -/
def setEntry {α : Type} : List (String × α) → String → α → List (String × α)
  | [], _, _ => []
  | (k', v') :: rest, k, v =>
      if k' = k then (k', v) :: rest else (k', v') :: setEntry rest k v

/-- `Config` from `src/config.rs`: the global table, the named tables, and
the named tables' comments. -/
structure Config where
  global : ConfigTable
  tables : List (String × ConfigTable)
  table_comments : List (String × String)
  deriving DecidableEq

/-- `Config::new_table`: reject the reserved name and duplicates, then
insert an empty table and its comments. -/
def Config.new_table (c : Config) (name comments : String) :
    Except ConfigErr Config :=
  if name = "__GLOBAL__" then
    .error (.other "Table name `__GLOBAL__` is reserved")
  else if containsKey c.tables name then
    .error (.other ("Duplicate table name `" ++ name ++ "`"))
  else
    .ok { c with
      tables := insertBTree name [] c.tables
      table_comments := insertBTree name comments c.table_comments }

/-- `Config::table_iter`: the global table first (under its reserved name,
with empty comments), then the named tables in map order with their
comments (`self.table_comments.get(name).unwrap()`; the `getD ""` default
models the `unwrap`, which never fails for configurations built through
the library because a comment entry is inserted with every table). -/
def Config.table_iter (c : Config) : List (String × ConfigTable × String) :=
  ("__GLOBAL__", c.global, "") ::
    c.tables.map (fun p => (p.1, p.2, (lookupKey c.table_comments p.1).getD ""))

/-- `Config::iter`: every global item under the reserved name, followed by
every item of every table yielded by `table_iter` — whose first entry is
the global table again. -/
def Config.iter (c : Config) : List (String × String × ConfigItem) :=
  c.global.map (fun p => ("__GLOBAL__", p.1, p.2)) ++
    (c.table_iter.flatMap fun t => t.2.1.map (fun p => (t.1, p.1, p.2)))

/-- The key-insertion loop of `Config::merge` for one table: insert each
entry of `src` into `target`, stopping with a duplicate-key error if the
key is already present.  Returns the table as mutated so far together with
the error, mirroring the `&mut self` receiver. -/
def mergeInsertAll (target : ConfigTable) :
    ConfigTable → ConfigTable × Option ConfigErr
  | [] => (target, none)
  | (k, item) :: rest =>
      if containsKey target k then
        (target, some (.other ("Duplicate key `" ++ k ++ "`")))
      else mergeInsertAll (insertBTree k item target) rest

/-- The table loop of `Config::merge`, processing the entries of the other
configuration's `table_iter`.  On error the configuration mutated so far is
returned alongside, mirroring the `&mut self` receiver. -/
def Config.mergeTables (c : Config) :
    List (String × ConfigTable × String) → Config × Option ConfigErr
  | [] => (c, none)
  | (name, tbl, cmts) :: rest =>
      if name = "__GLOBAL__" then
        match mergeInsertAll c.global tbl with
        | (g, none) => Config.mergeTables { c with global := g } rest
        | (g, some e) => ({ c with global := g }, some e)
      else
        match lookupKey c.tables name with
        | some t =>
            match mergeInsertAll t tbl with
            | (t', none) =>
                Config.mergeTables { c with tables := setEntry c.tables name t' } rest
            | (t', some e) =>
                ({ c with tables := setEntry c.tables name t' }, some e)
        | none =>
            match Config.new_table c name cmts with
            | .error e => (c, some e)
            | .ok c' =>
                match mergeInsertAll ((lookupKey c'.tables name).getD []) tbl with
                | (t', none) =>
                    Config.mergeTables
                      { c' with tables := setEntry c'.tables name t' } rest
                | (t', some e) =>
                    ({ c' with tables := setEntry c'.tables name t' }, some e)

/-- `Config::merge`: merge the other config into `c`; on a duplicate key,
return the error together with the partly merged configuration (the
source mutates `self` in place and returns early). -/
def Config.merge (c other : Config) : Config × Option ConfigErr :=
  Config.mergeTables c other.table_iter

/-- One iteration of the loop in `Config::update`, processing the entry
`(table_name, key, item)` of the other configuration's `iter`. -/
def Config.updateStep (c : Config) (tname key : String) (item : ConfigItem) :
    Config × Option ConfigErr :=
  if tname = "__GLOBAL__" then
    match lookupKey c.global key with
    | none => (c, none)
    | some self_item =>
        match self_item.value.ty with
        | none => (c, none)
        | some ty =>
            match ConfigValue.new_with_value_type item.value.value ty with
            | .ok newv =>
                ({ c with global :=
                    setEntry c.global key { self_item with value := newv } }, none)
            | .error _ => (c, some .valueTypeMismatch)
  else
    match lookupKey c.tables tname with
    | none => (c, none)
    | some tbl =>
        match lookupKey tbl key with
        | none => (c, none)
        | some self_item =>
            match self_item.value.ty with
            | none => (c, none)
            | some ty =>
                match ConfigValue.new_with_value_type item.value.value ty with
                | .ok newv =>
                    let tbl' := setEntry tbl key { self_item with value := newv }
                    ({ c with tables := setEntry c.tables tname tbl' }, none)
                | .error _ => (c, some .valueTypeMismatch)

/-- The loop of `Config::update` over the other configuration's entries;
stops at the first type mismatch, returning the configuration as mutated so
far (the source mutates `self` in place and returns early). -/
def Config.updateGo (c : Config) :
    List (String × String × ConfigItem) → Config × Option ConfigErr
  | [] => (c, none)
  | (t, k, it) :: rest =>
      match Config.updateStep c t k it with
      | (c', none) => Config.updateGo c' rest
      | (c', some e) => (c', some e)

/-- `Config::update` from `src/config.rs`. -/
def Config.update (c other : Config) : Config × Option ConfigErr :=
  Config.updateGo c other.iter

/-- Well-formedness of a configuration as produced by the library: no
duplicate keys within a table, no duplicate table names, and no named table
using the reserved global name.  `BTreeMap`s guarantee this in the source. -/
def Config.WF (c : Config) : Prop :=
  (c.global.map Prod.fst).Nodup ∧
  (c.tables.map Prod.fst).Nodup ∧
  (∀ p ∈ c.tables, (p.2.map Prod.fst).Nodup ∧ p.1 ≠ "__GLOBAL__")

instance (c : Config) : Decidable (Config.WF c) := by
  unfold Config.WF
  infer_instance

/-! ## Output writer (`axconfig-gen/src/output.rs`) -/

/-- `OutputFormat` from `axconfig-gen/src/output.rs`. -/
inductive OutputFormat where
  | toml
  | rust
  deriving DecidableEq

/-- `Output` from `axconfig-gen/src/output.rs`. -/
structure Output where
  fmt : OutputFormat
  indent : Nat
  result : String
  deriving DecidableEq

/-- Join a list of strings with a separator (`Vec::join`). -/
def joinSep (sep : String) : List String → String
  | [] => ""
  | [s] => s
  | s :: rest => s ++ sep ++ joinSep sep rest

/-- `.replace("\n", "\n    ")` on the character list. -/
def indentNewlines : List Char → List Char
  | [] => []
  | '\n' :: rest => '\n' :: ' ' :: ' ' :: ' ' :: ' ' :: indentNewlines rest
  | c :: rest => c :: indentNewlines rest

/-- `Value::is_array`. -/
def value_is_array : Value → Bool
  | .arr _ => true
  | _ => false

mutual

/-- `to_toml` from `src/value.rs` (named `to_toml_value` at its use site in
`axconfig-gen/src/output.rs`).  The source prints each scalar with
`display_repr()`, which reproduces the original source text of the value;
the model renders the canonical representation (`true`/`false`, decimal
integers, double-quoted strings), which is the representation for values
not originating from text. -/
def to_toml : Value → String
  | .bool b => if b then "true" else "false"
  | .int i => toString i
  | .str s => "\"" ++ s ++ "\""
  | .arr l =>
      if l.any value_is_array then
        "[\n    " ++
          String.mk (indentNewlines (joinSep ",\n" (to_toml_list l)).data) ++
          "\n]"
      else "[" ++ joinSep ", " (to_toml_list l) ++ "]"
  | .other => ""

/-- `arr.iter().map(to_toml).collect::<Vec<_>>()`. -/
def to_toml_list : List Value → List String
  | [] => []
  | e :: es => to_toml e :: to_toml_list es

end

mutual

/-- `ConfigType::to_rust_type` from `src/ty.rs`.  The source panics on
`Unknown` ("Unknown type"); the `Unknown` case is unreachable from
`write_item`, which checks for `Unknown` first, and is mapped to `""`. -/
def to_rust_type : ConfigType → String
  | .bool => "bool"
  | .int => "isize"
  | .uint => "usize"
  | .string => "&str"
  | .tuple items => "(" ++ joinSep ", " (to_rust_type_list items) ++ ")"
  | .array t => "&[" ++ to_rust_type t ++ "]"
  | .unknown => ""

/-- `items.iter().map(Self::to_rust_type).collect::<Vec<_>>()`. -/
def to_rust_type_list : List ConfigType → List String
  | [] => []
  | t :: ts => to_rust_type t :: to_rust_type_list ts

end

mutual

/-- Modelled from the spec: `ConfigValue::to_rust_value` lives in
`axconfig-gen/src/value.rs`, which is not among the provided sources (only
its caller in `output.rs` is).  Per the spec's rendering contract (§6), it
renders a value as a constant expression of the resolved type in the target
language: booleans and integers as literals, numeric-looking strings typed
`int`/`uint` as numeric literals, other strings quoted, arrays/tuples
recursively.  The `indent` parameter shapes multi-line layout only and is
ignored by the model. -/
def to_rust_value (v : Value) (ty : ConfigType) (indent : Nat) :
    Except ConfigErr String :=
  match v, ty with
  | .bool b, _ => .ok (if b then "true" else "false")
  | .int i, _ => .ok (toString i)
  | .str s, .int => .ok s
  | .str s, .uint => .ok s
  | .str s, _ => .ok ("\"" ++ s ++ "\"")
  | .arr l, .array t =>
      match to_rust_value_array l t indent with
      | .error e => .error e
      | .ok parts => .ok ("&[" ++ joinSep ", " parts ++ "]")
  | .arr l, .tuple ts =>
      match to_rust_value_tuple l ts indent with
      | .error e => .error e
      | .ok parts => .ok ("(" ++ joinSep ", " parts ++ ")")
  | _, _ => .error .valueTypeMismatch

/-- Modelled from the spec: elementwise rendering for array types. -/
def to_rust_value_array (l : List Value) (t : ConfigType) (indent : Nat) :
    Except ConfigErr (List String) :=
  match l with
  | [] => .ok []
  | e :: es =>
      match to_rust_value e t indent with
      | .error err => .error err
      | .ok s =>
          match to_rust_value_array es t indent with
          | .error err => .error err
          | .ok rest => .ok (s :: rest)

/-- Modelled from the spec: positional rendering for tuple types. -/
def to_rust_value_tuple (l : List Value) (ts : List ConfigType) (indent : Nat) :
    Except ConfigErr (List String) :=
  match l, ts with
  | [], [] => .ok []
  | e :: es, t :: rest_ts =>
      match to_rust_value e t indent with
      | .error err => .error err
      | .ok s =>
          match to_rust_value_tuple es rest_ts indent with
          | .error err => .error err
          | .ok rest => .ok (s :: rest)
  | _, _ => .error .valueTypeMismatch

end

/-- `str::lines` on the comments string: segments split at `'\n'`, with a
final empty segment (after a trailing newline, or for the empty string)
dropped. -/
def linesGo : List Char → List Char → List (List Char)
  | [], cur => if cur = [] then [] else [cur.reverse]
  | '\n' :: rest, cur => cur.reverse :: linesGo rest []
  | c :: rest, cur => linesGo rest (c :: cur)

/-- The lines of a comments string (`str::lines`; `\r\n` handling is not
modelled, the library only produces `\n`). -/
def linesOf (s : String) : List (List Char) := linesGo s.data []

/-- `.replacen("#", "///", 1)`: replace the first `#` with `///`. -/
def replaceFirstHash : List Char → List Char
  | [] => []
  | '#' :: rest => '/' :: '/' :: '/' :: rest
  | c :: rest => c :: replaceFirstHash rest

/-- `const_name` from `axconfig-gen/src/output.rs`: upper-case and replace
`-` with `_`. -/
def const_name (s : String) : String :=
  String.mk (s.data.map (fun c => if c = '-' then '_' else c.toUpper))

/-- Padding of `format!("{:indent$}{}\n", "", ...)`: `indent` spaces. -/
def padString (n : Nat) : String := String.mk (List.replicate n ' ')

/-- `Output::println`: append the indented line and a newline to the
accumulated result. -/
def Output.println (o : Output) (s : String) : Output :=
  { o with result := o.result ++ padString o.indent ++ s ++ "\n" }

/-- `Output::write_item` from `axconfig-gen/src/output.rs`.  In TOML format
the item is printed as `comments key = value`; in Rust format the comment
lines are printed first (with the leading `#` of each turned into `///`),
then the type is resolved (declared, else inferred), an `Unknown` resolved
type is rejected with an error naming the key, and otherwise a
`pub const` declaration is emitted. -/
def Output.write_item (o : Output) (item : ConfigItem) :
    Except ConfigErr Output :=
  match o.fmt with
  | .toml =>
      .ok (o.println (item.comments ++ item.key ++ " = " ++
        to_toml item.value.value))
  | .rust =>
      let o := (linesOf item.comments).foldl
        (fun acc line => acc.println (String.mk (replaceFirstHash line))) o
      let key := const_name item.key
      match (match item.value.ty with
             | some ty => Except.ok ty
             | none => inferred_type item.value.value) with
      | .error e => .error e
      | .ok ty =>
          if ty = ConfigType.unknown then
            .error (.other ("Unknown type for key `" ++ item.key ++ "`"))
          else
            match to_rust_value item.value.value ty o.indent with
            | .error e => .error e
            | .ok vs =>
                .ok (o.println ("pub const " ++ key ++ ": " ++
                  to_rust_type ty ++ " = " ++ vs ++ ";"))

/-! ## Inference / matching lemmas -/

mutual

/-- A type contains no `Unknown` anywhere. -/
def unknown_free : ConfigType → Bool
  | .unknown => false
  | .tuple ts => unknown_free_list ts
  | .array t => unknown_free t
  | .bool => true
  | .int => true
  | .uint => true
  | .string => true

def unknown_free_list : List ConfigType → Bool
  | [] => true
  | t :: ts => unknown_free t && unknown_free_list ts

end

theorem infer_scan_all_eq :
    ∀ (ts : List ConfigType) (t0 : ConfigType),
    infer_scan ts t0 = some true → ∀ t ∈ ts, t = t0
  | [], t0 => by
      intro _ t ht
      cases ht
  | a :: rest, t0 => by
      intro h t ht
      rw [infer_scan] at h
      rw [List.mem_cons] at ht
      split_ifs at h with h1 h2
      · rcases ht with rfl | ht
        · exact h2
        · exact infer_scan_all_eq rest t0 h t ht
      · cases h

theorem inferred_type_list_length :
    ∀ (l : List Value) (ts : List ConfigType),
    inferred_type_list l = .ok ts → l.length = ts.length := by
  intro l
  induction l with
  | nil => intro ts h; rw [inferred_type_list] at h; cases h; rfl
  | cons e es ih =>
      intro ts h
      rw [inferred_type_list] at h
      split at h
      · cases h
      · split at h
        · cases h
        · cases h
          simp [ih _ (by assumption)]

mutual

theorem infer_matches : ∀ (v : Value) (t : ConfigType),
    inferred_type v = .ok t → unknown_free t = true →
    value_type_matches v t = true
  | .bool b, t => by
      intro h _
      rw [inferred_type] at h
      cases h
      rfl
  | .int i, t => by
      intro h _
      rw [inferred_type] at h
      split_ifs at h <;> cases h <;> rfl
  | .str s, t => by
      intro h _
      rw [inferred_type] at h
      split_ifs at h with h1 <;> cases h <;> simp [value_type_matches, h1]
  | .arr l, t => by
      intro h huf
      rw [inferred_type] at h
      split at h
      · cases h
      · rename_i types hlist
        split at h
        · cases h; cases huf
        · rename_i t0 trest
          split at h
          · cases h; cases huf
          · rename_i hscan
            cases h
            rw [value_type_matches]
            rw [unknown_free] at huf
            exact infer_matches_array l _ t0 hlist
              (infer_scan_all_eq _ t0 hscan) huf
          · rename_i hscan
            cases h
            rw [value_type_matches]
            rw [unknown_free] at huf
            simp only [Bool.and_eq_true, decide_eq_true_eq]
            exact ⟨by simpa using inferred_type_list_length l _ hlist,
              infer_matches_tuple l _ hlist huf⟩
  | .other, t => by
      intro h _
      rw [inferred_type] at h
      cases h

theorem infer_matches_tuple : ∀ (l : List Value) (ts : List ConfigType),
    inferred_type_list l = .ok ts → unknown_free_list ts = true →
    tuple_elems_match l ts = true
  | [], ts => by
      intro h _
      rw [inferred_type_list] at h
      cases h
      rfl
  | e :: es, ts => by
      intro h huf
      rw [inferred_type_list] at h
      split at h
      · cases h
      · rename_i t0 he
        split at h
        · cases h
        · rename_i ts0 hes
          cases h
          rw [unknown_free_list] at huf
          simp only [Bool.and_eq_true] at huf
          rw [tuple_elems_match]
          simp only [Bool.and_eq_true]
          exact ⟨infer_matches e t0 he huf.1,
            infer_matches_tuple es ts0 hes huf.2⟩

theorem infer_matches_array : ∀ (l : List Value) (ts : List ConfigType)
    (t0 : ConfigType),
    inferred_type_list l = .ok ts → (∀ t ∈ ts, t = t0) →
    unknown_free t0 = true → array_elems_match l t0 = true
  | [], ts, t0 => by
      intro _ _ _
      rfl
  | e :: es, ts, t0 => by
      intro h hall huf
      rw [inferred_type_list] at h
      split at h
      · cases h
      · rename_i t1 he
        split at h
        · cases h
        · rename_i ts0 hes
          cases h
          have ht1 : t1 = t0 := hall t1 (List.mem_cons_self _ _)
          rw [array_elems_match]
          simp only [Bool.and_eq_true]
          exact ⟨ht1 ▸ infer_matches e t1 he (ht1 ▸ huf),
            infer_matches_array es ts0 t0 hes
              (fun t ht => hall t (List.mem_cons_of_mem _ ht)) huf⟩

end

/-! ## Association-list lemmas for the `BTreeMap` model -/

theorem lookupKey_insertBTree_ne {α : Type} (m : List (String × α))
    (k : String) (v : α) (k' : String) (hne : k' ≠ k) :
    lookupKey (insertBTree k v m) k' = lookupKey m k' := by
  induction m with
  | nil => simp [insertBTree, lookupKey, Ne.symm hne]
  | cons hd rest ih =>
      rcases hd with ⟨k0, v0⟩
      rw [insertBTree]
      split_ifs with hlt heq
      · simp [lookupKey, Ne.symm hne]
      · subst heq
        simp [lookupKey, Ne.symm hne]
      · by_cases h0 : k0 = k'
        · simp [lookupKey, h0]
        · simp [lookupKey, h0, ih]

theorem lookupKey_insertBTree_self {α : Type} (m : List (String × α))
    (k : String) (v : α) :
    lookupKey (insertBTree k v m) k = some v := by
  induction m with
  | nil => simp [insertBTree, lookupKey]
  | cons hd rest ih =>
      rcases hd with ⟨k0, v0⟩
      rw [insertBTree]
      split_ifs with hlt heq
      · simp [lookupKey]
      · simp [lookupKey, heq]
      · have hk0 : k0 ≠ k := fun h => heq h.symm
        simp [lookupKey, hk0, ih]

theorem containsKey_insertBTree {α : Type} (m : List (String × α))
    (k : String) (v : α) (k' : String) :
    containsKey (insertBTree k v m) k' = (k' = k || containsKey m k') := by
  by_cases hne : k' = k
  · subst hne
    rw [containsKey, lookupKey_insertBTree_self]
    simp
  · rw [containsKey, lookupKey_insertBTree_ne m k v k' hne]
    simp [hne, containsKey]

theorem lookupKey_setEntry_ne {α : Type} (m : List (String × α))
    (k : String) (v : α) (k' : String) (hne : k' ≠ k) :
    lookupKey (setEntry m k v) k' = lookupKey m k' := by
  induction m with
  | nil => simp [setEntry]
  | cons hd rest ih =>
      rcases hd with ⟨k0, v0⟩
      rw [setEntry]
      split_ifs with heq
      · subst heq
        simp [lookupKey, Ne.symm hne]
      · by_cases h0 : k0 = k'
        · simp [lookupKey, h0]
        · simp [lookupKey, h0, ih]

theorem lookupKey_setEntry_eq {α : Type} (m : List (String × α))
    (k : String) (v : α) (w : α) (hw : lookupKey m k = some w) :
    lookupKey (setEntry m k v) k = some v := by
  induction m with
  | nil => simp [lookupKey] at hw
  | cons hd rest ih =>
      rcases hd with ⟨k0, v0⟩
      rw [setEntry]
      split_ifs with heq
      · simp [lookupKey, heq]
      · rw [lookupKey] at hw ⊢
        rw [if_neg heq] at hw ⊢
        exact ih hw

theorem lookupKey_mem {α : Type} (m : List (String × α)) (k : String) (v : α)
    (h : lookupKey m k = some v) : (k, v) ∈ m := by
  induction m with
  | nil => simp [lookupKey] at h
  | cons hd rest ih =>
      rcases hd with ⟨k0, v0⟩
      rw [lookupKey] at h
      split_ifs at h with heq
      · cases h
        subst heq
        exact List.mem_cons_self _ _
      · exact List.mem_cons_of_mem _ (ih h)

theorem mem_lookupKey_of_nodup {α : Type} (m : List (String × α)) (k : String)
    (v : α) (hnd : (m.map Prod.fst).Nodup) (h : (k, v) ∈ m) :
    lookupKey m k = some v := by
  induction m with
  | nil => cases h
  | cons hd rest ih =>
      rcases hd with ⟨k0, v0⟩
      rw [List.map_cons, List.nodup_cons] at hnd
      rw [List.mem_cons] at h
      rcases h with h | h
      · cases h
        simp [lookupKey]
      · rw [lookupKey]
        have hk0 : k0 ≠ k := by
          intro he
          apply hnd.1
          rw [he]
          exact List.mem_map.mpr ⟨(k, v), h, rfl⟩
        rw [if_neg hk0]
        exact ih hnd.2 h

theorem containsKey_iff_mem_keys {α : Type} (m : List (String × α))
    (k : String) : containsKey m k = true ↔ k ∈ m.map Prod.fst := by
  induction m with
  | nil => simp [containsKey, lookupKey]
  | cons hd rest ih =>
      rcases hd with ⟨k0, v0⟩
      by_cases h0 : k0 = k
      · subst h0
        simp [containsKey, lookupKey]
      · simp only [containsKey, lookupKey, if_neg h0, List.map_cons,
          List.mem_cons]
        rw [← containsKey]
        rw [ih]
        constructor
        · exact fun h => Or.inr h
        · rintro (h | h)
          · exact absurd h.symm h0
          · exact h

/-! ## `new_with_value_type` lemmas -/

theorem new_with_value_type_ok {v : Value} {ty : ConfigType}
    {cv : ConfigValue} (h : ConfigValue.new_with_value_type v ty = .ok cv) :
    cv = ⟨v, some ty⟩ ∧ value_is_valid v = true ∧
      value_type_matches v ty = true := by
  rw [ConfigValue.new_with_value_type] at h
  split_ifs at h with h1 h2
  · cases h
    exact ⟨rfl, by simpa using h1, h2⟩

theorem new_with_value_type_ok_of {v : Value} {ty : ConfigType}
    (h1 : value_is_valid v = true) (h2 : value_type_matches v ty = true) :
    ConfigValue.new_with_value_type v ty = .ok ⟨v, some ty⟩ := by
  rw [ConfigValue.new_with_value_type]
  rw [h1]
  simp [h2]

/-! ## Merge lemmas -/

/-- The duplicate-key error produced by `Config::merge`. -/
def dup_key_err (k : String) : ConfigErr :=
  .other ("Duplicate key `" ++ k ++ "`")

theorem mergeInsertAll_preserves : ∀ (src target : ConfigTable) (k : String)
    (it : ConfigItem), lookupKey target k = some it →
    lookupKey (mergeInsertAll target src).1 k = some it
  | [], target, k, it => by
      intro h
      exact h
  | (k0, item0) :: rest, target, k, it => by
      intro h
      rw [mergeInsertAll]
      split_ifs with hc
      · exact h
      · have hk : k ≠ k0 := by
          rintro rfl
          rw [containsKey, h] at hc
          simp at hc
        exact mergeInsertAll_preserves rest _ k it
          (by rw [lookupKey_insertBTree_ne _ _ _ _ hk]; exact h)

theorem mergeInsertAll_contains (src target : ConfigTable) (k : String)
    (h : containsKey target k = true) :
    containsKey (mergeInsertAll target src).1 k = true := by
  rw [containsKey, Option.isSome_iff_exists] at h
  rcases h with ⟨it, hit⟩
  rw [containsKey, mergeInsertAll_preserves src target k it hit]
  rfl

theorem mergeInsertAll_errors : ∀ (src target : ConfigTable) (k : String),
    containsKey target k = true → k ∈ src.map Prod.fst →
    (mergeInsertAll target src).2.isSome = true
  | [], target, k => by
      intro _ hmem
      cases hmem
  | (k0, item0) :: rest, target, k => by
      intro hc hmem
      rw [mergeInsertAll]
      split_ifs with hc0
      · rfl
      · rw [List.map_cons, List.mem_cons] at hmem
        rcases hmem with rfl | hmem
        · exact absurd hc hc0
        · exact mergeInsertAll_errors rest _ k
            (by rw [containsKey_insertBTree]; simp [hc]) hmem

theorem mergeInsertAll_error_shape : ∀ (src target : ConfigTable)
    (e : ConfigErr), (src.map Prod.fst).Nodup →
    (mergeInsertAll target src).2 = some e →
    ∃ k', e = dup_key_err k' ∧ containsKey target k' = true ∧
      k' ∈ src.map Prod.fst
  | [], target, e => by
      intro _ h
      cases h
  | (k0, item0) :: rest, target, e => by
      intro hnd h
      rw [mergeInsertAll] at h
      rw [List.map_cons, List.nodup_cons] at hnd
      split_ifs at h with hc0
      · cases h
        exact ⟨k0, rfl, hc0, by simp⟩
      · rcases mergeInsertAll_error_shape rest _ e hnd.2 h with
          ⟨k', he, hck, hmem⟩
        refine ⟨k', he, ?_, by simp [hmem]⟩
        rw [containsKey_insertBTree] at hck
        have hne : k' ≠ k0 := by
          rintro rfl
          exact hnd.1 hmem
        simpa [hne] using hck

theorem new_table_ok {c c' : Config} {name cm : String}
    (h : Config.new_table c name cm = .ok c') :
    c'.global = c.global ∧ c'.tables = insertBTree name [] c.tables := by
  rw [Config.new_table] at h
  split_ifs at h
  cases h
  exact ⟨rfl, rfl⟩

theorem new_table_ok_of {c : Config} {name cm : String}
    (h1 : name ≠ "__GLOBAL__") (h2 : containsKey c.tables name = false) :
    Config.new_table c name cm = .ok { c with
      tables := insertBTree name [] c.tables
      table_comments := insertBTree name cm c.table_comments } := by
  rw [Config.new_table]
  rw [if_neg h1, h2]
  simp

theorem mergeTables_global_preserves :
    ∀ (ts : List (String × ConfigTable × String)) (c : Config) (k : String)
    (it : ConfigItem), lookupKey c.global k = some it →
    lookupKey (Config.mergeTables c ts).1.global k = some it
  | [], c, k, it => by
      intro h
      exact h
  | (name, tbl, cmts) :: rest, c, k, it => by
      intro h
      rw [Config.mergeTables]
      split_ifs with hg
      · split
        · rename_i g heq
          refine mergeTables_global_preserves rest _ k it ?_
          have hp := mergeInsertAll_preserves tbl c.global k it h
          rw [heq] at hp
          exact hp
        · rename_i g e heq
          have hp := mergeInsertAll_preserves tbl c.global k it h
          rw [heq] at hp
          exact hp
      · split
        · rename_i t heq
          split
          · rename_i t' heq2
            exact mergeTables_global_preserves rest _ k it h
          · rename_i t' e heq2
            exact h
        · rename_i heq
          split
          · rename_i e heq2
            exact h
          · rename_i c' heq2
            have hg' := (new_table_ok heq2).1
            split
            · rename_i t' heq3
              refine mergeTables_global_preserves rest _ k it ?_
              rw [hg']
              exact h
            · rename_i t' e heq3
              rw [hg']
              exact h

theorem mergeTables_table_preserves :
    ∀ (ts : List (String × ConfigTable × String)) (c : Config)
    (tn : String) (tblC : ConfigTable) (k : String) (it : ConfigItem),
    lookupKey c.tables tn = some tblC → lookupKey tblC k = some it →
    ∃ tbl', lookupKey (Config.mergeTables c ts).1.tables tn = some tbl' ∧
      lookupKey tbl' k = some it
  | [], c, tn, tblC, k, it => by
      intro h1 h2
      exact ⟨tblC, h1, h2⟩
  | (name, tbl, cmts) :: rest, c, tn, tblC, k, it => by
      intro h1 h2
      rw [Config.mergeTables]
      split_ifs with hg
      · split
        · rename_i g heq
          exact mergeTables_table_preserves rest _ tn tblC k it h1 h2
        · rename_i g e heq
          exact ⟨tblC, h1, h2⟩
      · by_cases hname : name = tn
        · subst hname
          rw [h1]
          simp only []
          split
          · rename_i t' heq
            refine mergeTables_table_preserves rest _ name
              t' k it ?_ ?_
            · exact lookupKey_setEntry_eq c.tables name t' tblC h1
            · have hp := mergeInsertAll_preserves tbl tblC k it h2
              rw [heq] at hp
              exact hp
          · rename_i t' e heq
            refine ⟨t', lookupKey_setEntry_eq c.tables name t' tblC h1, ?_⟩
            have hp := mergeInsertAll_preserves tbl tblC k it h2
            rw [heq] at hp
            exact hp
        · have hne : tn ≠ name := fun h => hname h.symm
          split
          · rename_i t heq
            split
            · rename_i t' heq2
              refine mergeTables_table_preserves rest _ tn tblC k it ?_ h2
              rw [lookupKey_setEntry_ne _ _ _ _ hne]
              exact h1
            · rename_i t' e heq2
              refine ⟨tblC, ?_, h2⟩
              rw [lookupKey_setEntry_ne _ _ _ _ hne]
              exact h1
          · rename_i heq
            split
            · rename_i e heq2
              exact ⟨tblC, h1, h2⟩
            · rename_i c' heq2
              have ht' := (new_table_ok heq2).2
              split
              · rename_i t' heq3
                refine mergeTables_table_preserves rest _ tn tblC k it ?_ h2
                rw [lookupKey_setEntry_ne _ _ _ _ hne, ht',
                  lookupKey_insertBTree_ne _ _ _ _ hne]
                exact h1
              · rename_i t' e heq3
                refine ⟨tblC, ?_, h2⟩
                rw [lookupKey_setEntry_ne _ _ _ _ hne, ht',
                  lookupKey_insertBTree_ne _ _ _ _ hne]
                exact h1

theorem mergeTables_errors_global :
    ∀ (ts : List (String × ConfigTable × String)) (c : Config) (k : String),
    containsKey c.global k = true →
    (∃ tbl cm, ("__GLOBAL__", tbl, cm) ∈ ts ∧ k ∈ tbl.map Prod.fst) →
    (Config.mergeTables c ts).2.isSome = true
  | [], c, k => by
      intro _ hmem
      rcases hmem with ⟨_, _, hmem, _⟩
      cases hmem
  | (name, tbl, cmts) :: rest, c, k => by
      intro hc hmem
      rcases hmem with ⟨tbl0, cm0, hmem0, hk0⟩
      rw [Config.mergeTables]
      split_ifs with hg
      · rcases List.mem_cons.mp hmem0 with he | hrest
        · injection he with he1 he2
          injection he2 with he2 he3
          subst hg
          subst he2
          split
          · rename_i g heq
            have herr := mergeInsertAll_errors tbl0 c.global k hc hk0
            rw [heq] at herr
            simp at herr
          · rfl
        · subst hg
          split
          · rename_i g heq
            refine mergeTables_errors_global rest _ k ?_ ⟨tbl0, cm0, hrest, hk0⟩
            have := mergeInsertAll_contains tbl c.global k hc
            rw [heq] at this
            exact this
          · rfl
      · have hrest : ("__GLOBAL__", tbl0, cm0) ∈ rest := by
          rcases List.mem_cons.mp hmem0 with he | hrest
          · injection he with he1 he2
            exact absurd he1.symm hg
          · exact hrest
        split
        · rename_i t heq
          split
          · rename_i t' heq2
            exact mergeTables_errors_global rest _ k hc ⟨tbl0, cm0, hrest, hk0⟩
          · rfl
        · rename_i heq
          split
          · rename_i e heq2
            rfl
          · rename_i c' heq2
            have hg' := (new_table_ok heq2).1
            split
            · rename_i t' heq3
              refine mergeTables_errors_global rest _ k ?_ ⟨tbl0, cm0, hrest, hk0⟩
              rw [hg']
              exact hc
            · rfl

theorem mergeTables_errors_named :
    ∀ (ts : List (String × ConfigTable × String)) (c : Config)
    (tn : String) (k : String), tn ≠ "__GLOBAL__" →
    (∃ tblC, lookupKey c.tables tn = some tblC ∧ containsKey tblC k = true) →
    (∃ tblO cm, (tn, tblO, cm) ∈ ts ∧ k ∈ tblO.map Prod.fst) →
    (Config.mergeTables c ts).2.isSome = true
  | [], c, tn, k => by
      intro _ _ hmem
      rcases hmem with ⟨_, _, hmem, _⟩
      cases hmem
  | (name, tbl, cmts) :: rest, c, tn, k => by
      intro htn hshared hmem
      rcases hshared with ⟨tblC, hlC, hcC⟩
      rcases hmem with ⟨tblO, cm0, hmem0, hkO⟩
      rw [Config.mergeTables]
      split_ifs with hg
      · have hrest : (tn, tblO, cm0) ∈ rest := by
          rcases List.mem_cons.mp hmem0 with he | hrest
          · injection he with he1 he2
            exact absurd (he1.trans hg) htn
          · exact hrest
        split
        · rename_i g heq
          exact mergeTables_errors_named rest _ tn k htn ⟨tblC, hlC, hcC⟩
            ⟨tblO, cm0, hrest, hkO⟩
        · rfl
      · by_cases hname : name = tn
        · subst hname
          rw [hlC]
          simp only []
          split
          · rename_i t' heq
            have hrest : (name, tblO, cm0) ∈ rest := by
              rcases List.mem_cons.mp hmem0 with he | hrest
              · injection he with he1 he2
                injection he2 with he2 he3
                subst he2
                have herr := mergeInsertAll_errors tblO tblC k hcC hkO
                rw [heq] at herr
                simp at herr
              · exact hrest
            refine mergeTables_errors_named rest _ name k htn
              ⟨t', lookupKey_setEntry_eq c.tables name t' tblC hlC, ?_⟩
              ⟨tblO, cm0, hrest, hkO⟩
            have := mergeInsertAll_contains tbl tblC k hcC
            rw [heq] at this
            exact this
          · rfl
        · have hne : tn ≠ name := fun h => hname h.symm
          have hrest : (tn, tblO, cm0) ∈ rest := by
            rcases List.mem_cons.mp hmem0 with he | hrest
            · injection he with he1 he2
              exact absurd he1.symm hname
            · exact hrest
          split
          · rename_i t heq
            split
            · rename_i t' heq2
              refine mergeTables_errors_named rest _ tn k htn
                ⟨tblC, ?_, hcC⟩ ⟨tblO, cm0, hrest, hkO⟩
              rw [lookupKey_setEntry_ne _ _ _ _ hne]
              exact hlC
            · rfl
          · rename_i heq
            split
            · rename_i e heq2
              rfl
            · rename_i c' heq2
              have ht' := (new_table_ok heq2).2
              split
              · rename_i t' heq3
                refine mergeTables_errors_named rest _ tn k htn
                  ⟨tblC, ?_, hcC⟩ ⟨tblO, cm0, hrest, hkO⟩
                rw [lookupKey_setEntry_ne _ _ _ _ hne, ht',
                  lookupKey_insertBTree_ne _ _ _ _ hne]
                exact hlC
              · rfl

theorem mergeTables_error_shape :
    ∀ (ts : List (String × ConfigTable × String)) (c : Config)
    (e : ConfigErr),
    (ts.map (fun x => x.1)).Nodup →
    (∀ x ∈ ts, (x.2.1.map Prod.fst).Nodup) →
    (Config.mergeTables c ts).2 = some e →
    ∃ k' name tblO cm, e = dup_key_err k' ∧ (name, tblO, cm) ∈ ts ∧
      k' ∈ tblO.map Prod.fst ∧
      ((name = "__GLOBAL__" ∧ containsKey c.global k' = true) ∨
       (name ≠ "__GLOBAL__" ∧
         ∃ tblC, lookupKey c.tables name = some tblC ∧
           containsKey tblC k' = true))
  | [], c, e => by
      intro _ _ h
      cases h
  | (name, tbl, cmts) :: rest, c, e => by
      intro hndn hndt h
      rw [List.map_cons, List.nodup_cons] at hndn
      have hndtbl : (tbl.map Prod.fst).Nodup :=
        hndt (name, tbl, cmts) (List.mem_cons_self _ _)
      have hndt' : ∀ x ∈ rest, (x.2.1.map Prod.fst).Nodup :=
        fun x hx => hndt x (List.mem_cons_of_mem _ hx)
      rw [Config.mergeTables] at h
      split_ifs at h with hg
      · subst hg
        split at h
        · rename_i g heq
          rcases mergeTables_error_shape rest _ e hndn.2 hndt' h with
            ⟨k', name', tblO', cm', he, hmem, hkO, hsh⟩
          refine ⟨k', name', tblO', cm', he, List.mem_cons_of_mem _ hmem,
            hkO, ?_⟩
          rcases hsh with ⟨hn1, _⟩ | ⟨hn2, hsh⟩
          · exact absurd (hn1 ▸ List.mem_map.mpr ⟨(name', tblO', cm'), hmem, rfl⟩)
              hndn.1
          · exact Or.inr ⟨hn2, hsh⟩
        · rename_i g e0 heq
          cases h
          have h2 : (mergeInsertAll c.global tbl).2 = some e := by
            rw [heq]
          rcases mergeInsertAll_error_shape tbl c.global e hndtbl h2 with
            ⟨k', he, hck, hmem⟩
          exact ⟨k', "__GLOBAL__", tbl, cmts, he, List.mem_cons_self _ _,
            hmem, Or.inl ⟨rfl, hck⟩⟩
      · split at h
        · rename_i t heqt
          split at h
          · rename_i t' heq
            rcases mergeTables_error_shape rest _ e hndn.2 hndt' h with
              ⟨k', name', tblO', cm', he, hmem, hkO, hsh⟩
            refine ⟨k', name', tblO', cm', he, List.mem_cons_of_mem _ hmem,
              hkO, ?_⟩
            rcases hsh with ⟨hn1, hsh1⟩ | ⟨hn2, tblC, hlC, hcC⟩
            · exact Or.inl ⟨hn1, hsh1⟩
            · have hne : name' ≠ name := by
                rintro rfl
                exact hndn.1 (List.mem_map.mpr ⟨(name', tblO', cm'), hmem, rfl⟩)
              rw [lookupKey_setEntry_ne _ _ _ _ hne] at hlC
              exact Or.inr ⟨hn2, tblC, hlC, hcC⟩
          · rename_i t' e0 heq
            cases h
            have h2 : (mergeInsertAll t tbl).2 = some e := by
              rw [heq]
            rcases mergeInsertAll_error_shape tbl t e hndtbl h2 with
              ⟨k', he, hck, hmem⟩
            exact ⟨k', name, tbl, cmts, he, List.mem_cons_self _ _, hmem,
              Or.inr ⟨hg, t, heqt, hck⟩⟩
        · rename_i heqt
          split at h
          · rename_i e0 heq2
            have hcf : containsKey c.tables name = false := by
              rw [containsKey, heqt]
              rfl
            rw [new_table_ok_of hg hcf] at heq2
            cases heq2
          · rename_i c' heq2
            have hg' := (new_table_ok heq2).1
            have ht' := (new_table_ok heq2).2
            have htarget : (lookupKey c'.tables name).getD [] = [] := by
              rw [ht', lookupKey_insertBTree_self]
              rfl
            split at h
            · rename_i t' heq3
              rcases mergeTables_error_shape rest _ e hndn.2 hndt' h with
                ⟨k', name', tblO', cm', he, hmem, hkO, hsh⟩
              refine ⟨k', name', tblO', cm', he, List.mem_cons_of_mem _ hmem,
                hkO, ?_⟩
              rcases hsh with ⟨hn1, hsh1⟩ | ⟨hn2, tblC, hlC, hcC⟩
              · rw [hg'] at hsh1
                exact Or.inl ⟨hn1, hsh1⟩
              · have hne : name' ≠ name := by
                  rintro rfl
                  exact hndn.1 (List.mem_map.mpr ⟨(name', tblO', cm'), hmem, rfl⟩)
                rw [lookupKey_setEntry_ne _ _ _ _ hne, ht',
                  lookupKey_insertBTree_ne _ _ _ _ hne] at hlC
                exact Or.inr ⟨hn2, tblC, hlC, hcC⟩
            · rename_i t' e0 heq3
              cases h
              rw [htarget] at heq3
              have h2 : (mergeInsertAll ([] : ConfigTable) tbl).2 = some e := by
                rw [heq3]
              rcases mergeInsertAll_error_shape tbl [] e hndtbl h2 with
                ⟨k', he, hck, hmem⟩
              rw [containsKey] at hck
              simp [lookupKey] at hck

/-! ## Update lemmas -/

/-- How a configuration item can change across `Config::update`: either it
is untouched, or — only if it had a declared type — its value is replaced
by a valid raw value matching that declared type, with the declared type
retained. -/
def itemEvolve (orig now : ConfigItem) : Prop :=
  now = orig ∨ ∃ ty v, orig.value.ty = some ty ∧ value_is_valid v = true ∧
    value_type_matches v ty = true ∧ now = { orig with value := ⟨v, some ty⟩ }

theorem itemEvolve_refl (it : ConfigItem) : itemEvolve it it := Or.inl rfl

theorem itemEvolve_trans {a b c : ConfigItem} (h1 : itemEvolve a b)
    (h2 : itemEvolve b c) : itemEvolve a c := by
  rcases h2 with rfl | ⟨ty, v, hty, hval, hm, rfl⟩
  · exact h1
  · rcases h1 with rfl | ⟨ty0, v0, hty0, hval0, hm0, rfl⟩
    · exact Or.inr ⟨ty, v, hty, hval, hm, rfl⟩
    · simp at hty
      subst hty
      exact Or.inr ⟨ty0, v, hty0, hval, hm, rfl⟩

theorem itemEvolve_untyped {a b : ConfigItem} (h : itemEvolve a b)
    (hty : a.value.ty = none) : b = a := by
  rcases h with rfl | ⟨ty, v, hty0, _, _, rfl⟩
  · rfl
  · rw [hty] at hty0
    cases hty0

theorem updateStep_error_self {c c' : Config} {t k : String}
    {it : ConfigItem} {e : ConfigErr}
    (h : Config.updateStep c t k it = (c', some e)) : c' = c := by
  rw [Config.updateStep] at h
  split_ifs at h
  iterate 5 (all_goals try split at h)
  all_goals try simp only [Prod.mk.injEq] at h
  all_goals first
    | exact h.1.symm
    | simp at h

theorem updateStep_global_ne {c : Config} {t0 k0 : String} {oit : ConfigItem}
    (k : String) (h : t0 ≠ "__GLOBAL__" ∨ k0 ≠ k) :
    lookupKey (Config.updateStep c t0 k0 oit).1.global k =
      lookupKey c.global k := by
  rw [Config.updateStep]
  split_ifs with hg
  · rcases h with h | h
    · exact absurd hg h
    · split
      · rfl
      · split
        · rfl
        · split
          · rw [lookupKey_setEntry_ne _ _ _ _ (fun hh => h hh.symm)]
          · rfl
  · split
    · rfl
    · split
      · rfl
      · split
        · rfl
        · split
          · rfl
          · rfl

theorem updateStep_tables_ne {c : Config} {t0 k0 : String} {oit : ConfigItem}
    (tn k : String) (tblC : ConfigTable) (it : ConfigItem)
    (hl : lookupKey c.tables tn = some tblC)
    (hlk : lookupKey tblC k = some it)
    (h : t0 ≠ tn ∨ k0 ≠ k) :
    ∃ tblC', lookupKey (Config.updateStep c t0 k0 oit).1.tables tn =
      some tblC' ∧ lookupKey tblC' k = some it := by
  rw [Config.updateStep]
  split_ifs with hg
  · refine ⟨tblC, ?_, hlk⟩
    split
    · exact hl
    · split
      · exact hl
      · split
        · exact hl
        · exact hl
  · by_cases htn : t0 = tn
    · subst htn
      rw [hl]
      simp only []
      have hk : k0 ≠ k := by
        rcases h with h | h
        · exact absurd rfl h
        · exact h
      split
      · exact ⟨tblC, hl, hlk⟩
      · split
        · exact ⟨tblC, hl, hlk⟩
        · split
          · refine ⟨_, lookupKey_setEntry_eq c.tables t0 _ tblC hl, ?_⟩
            rw [lookupKey_setEntry_ne _ _ _ _ (fun hh => hk hh.symm)]
            exact hlk
          · exact ⟨tblC, hl, hlk⟩
    · have hne : tn ≠ t0 := fun hh => htn hh.symm
      split
      · exact ⟨tblC, hl, hlk⟩
      · split
        · exact ⟨tblC, hl, hlk⟩
        · split
          · exact ⟨tblC, hl, hlk⟩
          · split
            · refine ⟨tblC, ?_, hlk⟩
              rw [lookupKey_setEntry_ne _ _ _ _ hne]
              exact hl
            · exact ⟨tblC, hl, hlk⟩

theorem updateStep_global_evolve (c : Config) (t0 k0 : String)
    (oit : ConfigItem) (k : String) (it : ConfigItem)
    (h : lookupKey c.global k = some it) :
    ∃ it', lookupKey (Config.updateStep c t0 k0 oit).1.global k = some it' ∧
      itemEvolve it it' := by
  by_cases hcase : t0 = "__GLOBAL__" ∧ k0 = k
  · obtain ⟨rfl, rfl⟩ := hcase
    rw [Config.updateStep]
    rw [if_pos rfl, h]
    simp only []
    split
    · exact ⟨it, h, itemEvolve_refl it⟩
    · rename_i ty hty
      split
      · rename_i newv heq
        rcases new_with_value_type_ok heq with ⟨rfl, hval, hm⟩
        refine ⟨{ it with value := ⟨oit.value.value, some ty⟩ }, ?_, ?_⟩
        · exact lookupKey_setEntry_eq c.global k0 _ it h
        · exact Or.inr ⟨ty, oit.value.value, hty, hval, hm, rfl⟩
      · exact ⟨it, h, itemEvolve_refl it⟩
  · have hne : t0 ≠ "__GLOBAL__" ∨ k0 ≠ k := by tauto
    refine ⟨it, ?_, itemEvolve_refl it⟩
    rw [updateStep_global_ne k hne]
    exact h

theorem updateStep_tables_evolve (c : Config) (t0 k0 : String)
    (oit : ConfigItem) (tn k : String) (tblC : ConfigTable) (it : ConfigItem)
    (hl : lookupKey c.tables tn = some tblC)
    (hlk : lookupKey tblC k = some it) :
    ∃ tblC' it', lookupKey (Config.updateStep c t0 k0 oit).1.tables tn =
      some tblC' ∧ lookupKey tblC' k = some it' ∧ itemEvolve it it' := by
  by_cases hcase : t0 = tn ∧ k0 = k
  · obtain ⟨rfl, rfl⟩ := hcase
    rw [Config.updateStep]
    split_ifs with hg
    · refine ⟨tblC, it, ?_, hlk, itemEvolve_refl it⟩
      split
      · exact hl
      · split
        · exact hl
        · split
          · exact hl
          · exact hl
    · rw [hl]
      simp only []
      rw [hlk]
      simp only []
      split
      · exact ⟨tblC, it, hl, hlk, itemEvolve_refl it⟩
      · rename_i ty hty
        split
        · rename_i newv heq
          rcases new_with_value_type_ok heq with ⟨rfl, hval, hm⟩
          refine ⟨_, { it with value := ⟨oit.value.value, some ty⟩ },
            lookupKey_setEntry_eq c.tables t0 _ tblC hl,
            lookupKey_setEntry_eq tblC k0 _ it hlk, ?_⟩
          exact Or.inr ⟨ty, oit.value.value, hty, hval, hm, rfl⟩
        · exact ⟨tblC, it, hl, hlk, itemEvolve_refl it⟩
  · have hne : t0 ≠ tn ∨ k0 ≠ k := by tauto
    rcases updateStep_tables_ne tn k tblC it hl hlk hne with ⟨tblC', h1, h2⟩
    exact ⟨tblC', it, h1, h2, itemEvolve_refl it⟩

theorem updateGo_global_evolve :
    ∀ (entries : List (String × String × ConfigItem)) (c : Config)
    (k : String) (it : ConfigItem), lookupKey c.global k = some it →
    ∃ it', lookupKey (Config.updateGo c entries).1.global k = some it' ∧
      itemEvolve it it'
  | [], c, k, it => fun h => ⟨it, h, itemEvolve_refl it⟩
  | (t0, k0, oit) :: rest, c, k, it => by
      intro h
      rw [Config.updateGo]
      split
      · rename_i c1 heq
        have hstep := updateStep_global_evolve c t0 k0 oit k it h
        rw [heq] at hstep
        rcases hstep with ⟨it1, h1, he1⟩
        rcases updateGo_global_evolve rest c1 k it1 h1 with ⟨it', h', he'⟩
        exact ⟨it', h', itemEvolve_trans he1 he'⟩
      · rename_i c1 e heq
        have hc1 : c1 = c := updateStep_error_self heq
        subst hc1
        exact ⟨it, h, itemEvolve_refl it⟩

theorem updateGo_tables_evolve :
    ∀ (entries : List (String × String × ConfigItem)) (c : Config)
    (tn k : String) (tblC : ConfigTable) (it : ConfigItem),
    lookupKey c.tables tn = some tblC → lookupKey tblC k = some it →
    ∃ tblC' it', lookupKey (Config.updateGo c entries).1.tables tn =
      some tblC' ∧ lookupKey tblC' k = some it' ∧ itemEvolve it it'
  | [], c, tn, k, tblC, it => fun h1 h2 => ⟨tblC, it, h1, h2, itemEvolve_refl it⟩
  | (t0, k0, oit) :: rest, c, tn, k, tblC, it => by
      intro h1 h2
      rw [Config.updateGo]
      split
      · rename_i c1 heq
        have hstep := updateStep_tables_evolve c t0 k0 oit tn k tblC it h1 h2
        rw [heq] at hstep
        rcases hstep with ⟨tblC1, it1, hh1, hh2, he1⟩
        rcases updateGo_tables_evolve rest c1 tn k tblC1 it1 hh1 hh2 with
          ⟨tblC', it', h1', h2', he'⟩
        exact ⟨tblC', it', h1', h2', itemEvolve_trans he1 he'⟩
      · rename_i c1 e heq
        have hc1 : c1 = c := updateStep_error_self heq
        subst hc1
        exact ⟨tblC, it, h1, h2, itemEvolve_refl it⟩

theorem updateStep_global_hit_ok {c : Config} {k : String}
    {oit it : ConfigItem} {ty : ConfigType} {newv : ConfigValue}
    (h : lookupKey c.global k = some it) (hty : it.value.ty = some ty)
    (hw : ConfigValue.new_with_value_type oit.value.value ty = .ok newv) :
    Config.updateStep c "__GLOBAL__" k oit =
      ({ c with global := setEntry c.global k { it with value := newv } },
        none) := by
  rw [Config.updateStep, if_pos rfl, h]
  simp only []
  split
  · rename_i hnone
    rw [hty] at hnone
    cases hnone
  · rename_i ty' hty'
    rw [hty] at hty'
    injection hty' with hty'
    subst hty'
    rw [hw]

theorem updateStep_global_hit_err {c : Config} {k : String}
    {oit it : ConfigItem} {ty : ConfigType} {e : ConfigErr}
    (h : lookupKey c.global k = some it) (hty : it.value.ty = some ty)
    (hw : ConfigValue.new_with_value_type oit.value.value ty = .error e) :
    Config.updateStep c "__GLOBAL__" k oit = (c, some .valueTypeMismatch) := by
  rw [Config.updateStep, if_pos rfl, h]
  simp only []
  split
  · rename_i hnone
    rw [hty] at hnone
    cases hnone
  · rename_i ty' hty'
    rw [hty] at hty'
    injection hty' with hty'
    subst hty'
    rw [hw]

theorem updateStep_global_stay (c : Config) (t0 k0 : String)
    (oit : ConfigItem) (k : String) (it : ConfigItem) (ty : ConfigType)
    (v0 : Value) (h : lookupKey c.global k = some it)
    (hv : it.value = ⟨v0, some ty⟩) (hval : value_is_valid v0 = true)
    (hm : value_type_matches v0 ty = true)
    (hsame : t0 = "__GLOBAL__" → k0 = k → oit.value.value = v0) :
    lookupKey (Config.updateStep c t0 k0 oit).1.global k = some it := by
  by_cases hcase : t0 = "__GLOBAL__" ∧ k0 = k
  · obtain ⟨rfl, rfl⟩ := hcase
    have hty : it.value.ty = some ty := by rw [hv]
    have hraw : oit.value.value = v0 := hsame rfl rfl
    have hw : ConfigValue.new_with_value_type oit.value.value ty =
        .ok ⟨v0, some ty⟩ := by
      rw [hraw]
      exact new_with_value_type_ok_of hval hm
    rw [updateStep_global_hit_ok h hty hw]
    have hit : { it with value := (⟨v0, some ty⟩ : ConfigValue) } = it := by
      rw [← hv]
    rw [hit]
    exact lookupKey_setEntry_eq c.global k0 it it h
  · have hne : t0 ≠ "__GLOBAL__" ∨ k0 ≠ k := by tauto
    rw [updateStep_global_ne k hne]
    exact h

theorem updateGo_global_stay :
    ∀ (entries : List (String × String × ConfigItem)) (c : Config)
    (k : String) (it : ConfigItem) (ty : ConfigType) (v0 : Value),
    lookupKey c.global k = some it → it.value = ⟨v0, some ty⟩ →
    value_is_valid v0 = true → value_type_matches v0 ty = true →
    (∀ e ∈ entries, e.1 = "__GLOBAL__" → e.2.1 = k →
      e.2.2.value.value = v0) →
    lookupKey (Config.updateGo c entries).1.global k = some it
  | [], c, k, it, ty, v0 => fun h _ _ _ _ => h
  | (t0, k0, oit) :: rest, c, k, it, ty, v0 => by
      intro h hv hval hm hsame
      rw [Config.updateGo]
      split
      · rename_i c1 heq
        have hstep := updateStep_global_stay c t0 k0 oit k it ty v0 h hv hval
          hm (fun h1 h2 => hsame (t0, k0, oit) (List.mem_cons_self _ _) h1 h2)
        rw [heq] at hstep
        exact updateGo_global_stay rest c1 k it ty v0 hstep hv hval hm
          (fun e he => hsame e (List.mem_cons_of_mem _ he))
      · rename_i c1 e heq
        have hc1 : c1 = c := updateStep_error_self heq
        subst hc1
        exact h

theorem updateGo_global_adopt :
    ∀ (entries : List (String × String × ConfigItem)) (c : Config)
    (k : String) (it : ConfigItem) (ty : ConfigType) (oit : ConfigItem),
    lookupKey c.global k = some it → it.value.ty = some ty →
    ("__GLOBAL__", k, oit) ∈ entries →
    (∀ e ∈ entries, e.1 = "__GLOBAL__" → e.2.1 = k → e.2.2 = oit) →
    (Config.updateGo c entries).2 = none →
    value_type_matches oit.value.value ty = true ∧
    value_is_valid oit.value.value = true ∧
    lookupKey (Config.updateGo c entries).1.global k =
      some { it with value := ⟨oit.value.value, some ty⟩ }
  | [], c, k, it, ty, oit => by
      intro _ _ hmem _ _
      cases hmem
  | (t0, k0, oit0) :: rest, c, k, it, ty, oit => by
      intro h hty hmem huniq hnone
      by_cases hcase : t0 = "__GLOBAL__" ∧ k0 = k
      · obtain ⟨rfl, rfl⟩ := hcase
        have hoit0 : oit0 = oit :=
          huniq ("__GLOBAL__", k0, oit0) (List.mem_cons_self _ _) rfl rfl
        subst hoit0
        cases hw : ConfigValue.new_with_value_type oit0.value.value ty with
        | error e =>
            rw [Config.updateGo, updateStep_global_hit_err h hty hw] at hnone
            cases hnone
        | ok newv =>
            rcases new_with_value_type_ok hw with ⟨rfl, hval, hm⟩
            refine ⟨hm, hval, ?_⟩
            rw [Config.updateGo, updateStep_global_hit_ok h hty hw]
            simp only []
            refine updateGo_global_stay rest _ k0
              { it with value := ⟨oit0.value.value, some ty⟩ } ty
              oit0.value.value ?_ rfl hval hm ?_
            · exact lookupKey_setEntry_eq c.global k0 _ it h
            · intro e he h1 h2
              rw [huniq e (List.mem_cons_of_mem _ he) h1 h2]
      · have hne : t0 ≠ "__GLOBAL__" ∨ k0 ≠ k := by tauto
        have hmem' : ("__GLOBAL__", k, oit) ∈ rest := by
          rcases List.mem_cons.mp hmem with he | hrest
          · exfalso
            apply hcase
            constructor
            · injection he with he1 _
              exact he1.symm
            · have he2 := congrArg (fun x => x.2.1) he
              exact he2.symm
          · exact hrest
        rw [Config.updateGo]
        rw [Config.updateGo] at hnone
        split at hnone
        · rename_i c1 heq
          have hpres := @updateStep_global_ne c t0 k0 oit0 k hne
          rw [heq] at hpres
          simp only [] at hpres
          rw [h] at hpres
          exact updateGo_global_adopt rest c1 k it ty oit hpres hty hmem'
            (fun e he => huniq e (List.mem_cons_of_mem _ he)) hnone
        · cases hnone

theorem updateStep_tables_hit_ok {c : Config} {tn k : String}
    {oit it : ConfigItem} {tbl : ConfigTable} {ty : ConfigType}
    {newv : ConfigValue} (hng : tn ≠ "__GLOBAL__")
    (hl : lookupKey c.tables tn = some tbl) (hk : lookupKey tbl k = some it)
    (hty : it.value.ty = some ty)
    (hw : ConfigValue.new_with_value_type oit.value.value ty = .ok newv) :
    Config.updateStep c tn k oit =
      ({ c with tables := (setEntry c.tables tn
          (setEntry tbl k { it with value := newv })) }, none) := by
  rw [Config.updateStep, if_neg hng, hl]
  simp only []
  rw [hk]
  simp only []
  split
  · rename_i hnone
    rw [hty] at hnone
    cases hnone
  · rename_i ty' hty'
    rw [hty] at hty'
    injection hty' with hty'
    subst hty'
    rw [hw]

theorem updateStep_tables_hit_err {c : Config} {tn k : String}
    {oit it : ConfigItem} {tbl : ConfigTable} {ty : ConfigType}
    {e : ConfigErr} (hng : tn ≠ "__GLOBAL__")
    (hl : lookupKey c.tables tn = some tbl) (hk : lookupKey tbl k = some it)
    (hty : it.value.ty = some ty)
    (hw : ConfigValue.new_with_value_type oit.value.value ty = .error e) :
    Config.updateStep c tn k oit = (c, some .valueTypeMismatch) := by
  rw [Config.updateStep, if_neg hng, hl]
  simp only []
  rw [hk]
  simp only []
  split
  · rename_i hnone
    rw [hty] at hnone
    cases hnone
  · rename_i ty' hty'
    rw [hty] at hty'
    injection hty' with hty'
    subst hty'
    rw [hw]

theorem updateStep_tables_stay (c : Config) (t0 k0 : String)
    (oit : ConfigItem) (tn k : String) (tblC : ConfigTable) (it : ConfigItem)
    (ty : ConfigType) (v0 : Value) (hng : tn ≠ "__GLOBAL__")
    (hl : lookupKey c.tables tn = some tblC)
    (hlk : lookupKey tblC k = some it) (hv : it.value = ⟨v0, some ty⟩)
    (hval : value_is_valid v0 = true) (hm : value_type_matches v0 ty = true)
    (hsame : t0 = tn → k0 = k → oit.value.value = v0) :
    ∃ tblC', lookupKey (Config.updateStep c t0 k0 oit).1.tables tn =
      some tblC' ∧ lookupKey tblC' k = some it := by
  by_cases hcase : t0 = tn ∧ k0 = k
  · obtain ⟨rfl, rfl⟩ := hcase
    have hty : it.value.ty = some ty := by rw [hv]
    have hraw : oit.value.value = v0 := hsame rfl rfl
    have hw : ConfigValue.new_with_value_type oit.value.value ty =
        .ok ⟨v0, some ty⟩ := by
      rw [hraw]
      exact new_with_value_type_ok_of hval hm
    rw [updateStep_tables_hit_ok hng hl hlk hty hw]
    have hit : { it with value := (⟨v0, some ty⟩ : ConfigValue) } = it := by
      rw [← hv]
    rw [hit]
    refine ⟨setEntry tblC k0 it, ?_, ?_⟩
    · exact lookupKey_setEntry_eq c.tables t0 _ tblC hl
    · exact lookupKey_setEntry_eq tblC k0 it it hlk
  · have hne : t0 ≠ tn ∨ k0 ≠ k := by tauto
    exact updateStep_tables_ne tn k tblC it hl hlk hne

theorem updateGo_tables_stay :
    ∀ (entries : List (String × String × ConfigItem)) (c : Config)
    (tn k : String) (tblC : ConfigTable) (it : ConfigItem) (ty : ConfigType)
    (v0 : Value), tn ≠ "__GLOBAL__" →
    lookupKey c.tables tn = some tblC → lookupKey tblC k = some it →
    it.value = ⟨v0, some ty⟩ → value_is_valid v0 = true →
    value_type_matches v0 ty = true →
    (∀ e ∈ entries, e.1 = tn → e.2.1 = k → e.2.2.value.value = v0) →
    ∃ tblC', lookupKey (Config.updateGo c entries).1.tables tn =
      some tblC' ∧ lookupKey tblC' k = some it
  | [], c, tn, k, tblC, it, ty, v0 => fun _ h1 h2 _ _ _ _ => ⟨tblC, h1, h2⟩
  | (t0, k0, oit) :: rest, c, tn, k, tblC, it, ty, v0 => by
      intro hng h1 h2 hv hval hm hsame
      rw [Config.updateGo]
      split
      · rename_i c1 heq
        have hstep := updateStep_tables_stay c t0 k0 oit tn k tblC it ty v0
          hng h1 h2 hv hval hm
          (fun ht hk => hsame (t0, k0, oit) (List.mem_cons_self _ _) ht hk)
        rw [heq] at hstep
        rcases hstep with ⟨tblC1, hh1, hh2⟩
        exact updateGo_tables_stay rest c1 tn k tblC1 it ty v0 hng hh1 hh2
          hv hval hm (fun e he => hsame e (List.mem_cons_of_mem _ he))
      · rename_i c1 e heq
        have hc1 : c1 = c := updateStep_error_self heq
        subst hc1
        exact ⟨tblC, h1, h2⟩

theorem updateGo_tables_adopt :
    ∀ (entries : List (String × String × ConfigItem)) (c : Config)
    (tn k : String) (tblC : ConfigTable) (it : ConfigItem) (ty : ConfigType)
    (oit : ConfigItem), tn ≠ "__GLOBAL__" →
    lookupKey c.tables tn = some tblC → lookupKey tblC k = some it →
    it.value.ty = some ty → (tn, k, oit) ∈ entries →
    (∀ e ∈ entries, e.1 = tn → e.2.1 = k → e.2.2 = oit) →
    (Config.updateGo c entries).2 = none →
    value_type_matches oit.value.value ty = true ∧
    value_is_valid oit.value.value = true ∧
    ∃ tblC', lookupKey (Config.updateGo c entries).1.tables tn =
      some tblC' ∧ lookupKey tblC' k =
        some { it with value := ⟨oit.value.value, some ty⟩ }
  | [], c, tn, k, tblC, it, ty, oit => by
      intro _ _ _ _ hmem _ _
      cases hmem
  | (t0, k0, oit0) :: rest, c, tn, k, tblC, it, ty, oit => by
      intro hng h1 h2 hty hmem huniq hnone
      by_cases hcase : t0 = tn ∧ k0 = k
      · obtain ⟨rfl, rfl⟩ := hcase
        have hoit0 : oit0 = oit :=
          huniq (t0, k0, oit0) (List.mem_cons_self _ _) rfl rfl
        subst hoit0
        cases hw : ConfigValue.new_with_value_type oit0.value.value ty with
        | error e =>
            rw [Config.updateGo,
              updateStep_tables_hit_err hng h1 h2 hty hw] at hnone
            cases hnone
        | ok newv =>
            rcases new_with_value_type_ok hw with ⟨rfl, hval, hm⟩
            refine ⟨hm, hval, ?_⟩
            rw [Config.updateGo, updateStep_tables_hit_ok hng h1 h2 hty hw]
            simp only []
            refine updateGo_tables_stay rest _ t0 k0
              (setEntry tblC k0 { it with value := ⟨oit0.value.value, some ty⟩ })
              { it with value := ⟨oit0.value.value, some ty⟩ } ty
              oit0.value.value hng ?_ ?_ rfl hval hm ?_
            · exact lookupKey_setEntry_eq c.tables t0 _ tblC h1
            · exact lookupKey_setEntry_eq tblC k0 _ it h2
            · intro e he hh1 hh2
              rw [huniq e (List.mem_cons_of_mem _ he) hh1 hh2]
      · have hne : t0 ≠ tn ∨ k0 ≠ k := by tauto
        have hmem' : (tn, k, oit) ∈ rest := by
          rcases List.mem_cons.mp hmem with he | hrest
          · exfalso
            apply hcase
            constructor
            · injection he with he1 _
              exact he1.symm
            · have he2 := congrArg (fun x => x.2.1) he
              exact he2.symm
          · exact hrest
        rw [Config.updateGo]
        rw [Config.updateGo] at hnone
        split at hnone
        · rename_i c1 heq
          have hpres := @updateStep_tables_ne c t0 k0 oit0 tn k tblC it h1
            h2 hne
          rw [heq] at hpres
          simp only [] at hpres
          rcases hpres with ⟨tblC1, hh1, hh2⟩
          exact updateGo_tables_adopt rest c1 tn k tblC1 it ty oit hng hh1
            hh2 hty hmem' (fun e he => huniq e (List.mem_cons_of_mem _ he))
            hnone
        · cases hnone

/-! ## Iterator lemmas -/

theorem count_map_entries (l : ConfigTable) (n k : String) (it : ConfigItem) :
    ((l.map (fun p => (n, p.1, p.2))).count (n, k, it)) = l.count (k, it) := by
  induction l with
  | nil => rfl
  | cons hd rest ih =>
      rcases hd with ⟨k0, it0⟩
      simp only [List.map_cons, List.count_cons, ih, beq_iff_eq,
        Prod.mk.injEq, true_and]

theorem count_map_entries_ne (l : ConfigTable) (n m k : String)
    (it : ConfigItem) (h : m ≠ n) :
    ((l.map (fun p => (n, p.1, p.2))).count (m, k, it)) = 0 := by
  rw [List.count_eq_zero]
  intro hmem
  rw [List.mem_map] at hmem
  rcases hmem with ⟨p, _, hp⟩
  injection hp with hp1 _
  exact h hp1.symm

theorem count_pair_of_nodup :
    ∀ (l : ConfigTable) (k : String) (it : ConfigItem),
    (l.map Prod.fst).Nodup → (k, it) ∈ l → l.count (k, it) = 1
  | [], k, it => by
      intro _ hmem
      cases hmem
  | (k0, it0) :: rest, k, it => by
      intro hnd hmem
      rw [List.map_cons, List.nodup_cons] at hnd
      rw [List.count_cons]
      rcases List.mem_cons.mp hmem with he | hrest
      · injection he with he1 he2
        subst he1
        subst he2
        have hzero : List.count (k, it) rest = 0 := by
          rw [List.count_eq_zero]
          intro hc
          exact hnd.1 (List.mem_map.mpr ⟨(k, it), hc, rfl⟩)
        simp [hzero]
      · have hk0 : ¬((k, it) = (k0, it0)) := by
          rintro ⟨rfl, rfl⟩
          exact hnd.1 (List.mem_map.mpr ⟨(k0, it0), hrest, rfl⟩)
        have hbeq : ((k0, it0) == (k, it)) = false := by
          rw [Bool.eq_false_iff]
          intro hb
          exact hk0 (eq_of_beq hb).symm
        rw [count_pair_of_nodup rest k it hnd.2 hrest, hbeq]
        rfl

theorem count_flat_zero :
    ∀ (tables : List (String × ConfigTable)) (tn k : String)
    (it : ConfigItem), tn ∉ tables.map Prod.fst →
    ((tables.flatMap (fun p => p.2.map (fun q => (p.1, q.1, q.2)))).count
      (tn, k, it)) = 0
  | [], tn, k, it => fun _ => rfl
  | (n0, tbl0) :: rest, tn, k, it => by
      intro h
      rw [List.map_cons, List.mem_cons] at h
      push_neg at h
      rw [List.flatMap_cons, List.count_append,
        count_map_entries_ne tbl0 n0 tn k it h.1,
        count_flat_zero rest tn k it h.2]

theorem count_flat_named :
    ∀ (tables : List (String × ConfigTable)) (tn : String)
    (tbl : ConfigTable) (k : String) (it : ConfigItem),
    (tables.map Prod.fst).Nodup → (tn, tbl) ∈ tables →
    (tbl.map Prod.fst).Nodup → (k, it) ∈ tbl →
    ((tables.flatMap (fun p => p.2.map (fun q => (p.1, q.1, q.2)))).count
      (tn, k, it)) = 1
  | [], tn, tbl, k, it => by
      intro _ hmem _ _
      cases hmem
  | (n0, tbl0) :: rest, tn, tbl, k, it => by
      intro hnd hmem hndt hkit
      rw [List.map_cons, List.nodup_cons] at hnd
      rw [List.flatMap_cons, List.count_append]
      rcases List.mem_cons.mp hmem with he | hrest
      · injection he with he1 he2
        subst he1
        subst he2
        rw [count_map_entries, count_pair_of_nodup tbl k it hndt hkit,
          count_flat_zero rest tn k it hnd.1]
      · have hne : tn ≠ n0 := by
          rintro rfl
          exact hnd.1 (List.mem_map.mpr ⟨(tn, tbl), hrest, rfl⟩)
        rw [count_map_entries_ne tbl0 n0 tn k it hne,
          count_flat_named rest tn tbl k it hnd.2 hrest hndt hkit]

theorem iter_structure (c : Config) :
    Config.iter c =
      c.global.map (fun p => ("__GLOBAL__", p.1, p.2)) ++
      (c.global.map (fun p => ("__GLOBAL__", p.1, p.2)) ++
        c.tables.flatMap (fun p => p.2.map (fun q => (p.1, q.1, q.2)))) := by
  rw [Config.iter, Config.table_iter]
  rw [List.flatMap_cons]
  congr 1
  congr 1
  rw [List.flatMap_map]

theorem iter_mem_global (c : Config) (k : String) (x : ConfigItem)
    (hWF : Config.WF c) :
    ("__GLOBAL__", k, x) ∈ Config.iter c ↔ (k, x) ∈ c.global := by
  rw [iter_structure]
  simp only [List.mem_append]
  constructor
  · rintro (h | h | h)
    · rcases List.mem_map.mp h with ⟨p, hp, he⟩
      injection he with _ he2
      injection he2 with he2 he3
      rw [← he2, ← he3]
      exact hp
    · rcases List.mem_map.mp h with ⟨p, hp, he⟩
      injection he with _ he2
      injection he2 with he2 he3
      rw [← he2, ← he3]
      exact hp
    · exfalso
      rcases List.mem_flatMap.mp h with ⟨p, hp, hq⟩
      rcases List.mem_map.mp hq with ⟨q, _, he⟩
      injection he with he1 _
      exact (hWF.2.2 p hp).2 he1
  · intro h
    exact Or.inl (List.mem_map.mpr ⟨(k, x), h, rfl⟩)

theorem iter_mem_named (c : Config) (tn k : String) (x : ConfigItem)
    (hng : tn ≠ "__GLOBAL__") :
    (tn, k, x) ∈ Config.iter c ↔
      ∃ tbl, (tn, tbl) ∈ c.tables ∧ (k, x) ∈ tbl := by
  rw [iter_structure]
  simp only [List.mem_append]
  constructor
  · rintro (h | h | h)
    · rcases List.mem_map.mp h with ⟨p, _, he⟩
      injection he with he1 _
      exact absurd he1.symm hng
    · rcases List.mem_map.mp h with ⟨p, _, he⟩
      injection he with he1 _
      exact absurd he1.symm hng
    · rcases List.mem_flatMap.mp h with ⟨p, hp, hq⟩
      rcases List.mem_map.mp hq with ⟨q, hq2, he⟩
      injection he with he1 he2
      injection he2 with he2 he3
      refine ⟨p.2, ?_, ?_⟩
      · rw [← he1]
        rcases p with ⟨p1, p2⟩
        exact hp
      · rw [← he2, ← he3]
        exact hq2
  · rintro ⟨tbl, h1, h2⟩
    refine Or.inr (Or.inr (List.mem_flatMap.mpr ⟨(tn, tbl), h1, ?_⟩))
    exact List.mem_map.mpr ⟨(k, x), h2, rfl⟩

/-! ## Claim-level definitions -/

/-- The key `k` is defined in table `tn` (the global table under its
reserved name) of both configurations. -/
def sharedKeyAt (c o : Config) (tn k : String) : Bool :=
  if tn = "__GLOBAL__" then containsKey c.global k && containsKey o.global k
  else
    match lookupKey c.tables tn, lookupKey o.tables tn with
    | some tblC, some tblO => containsKey tblC k && containsKey tblO k
    | _, _ => false

/-- The item stored at `(tn, k)` (with `tn = "__GLOBAL__"` addressing the
global table), if any. -/
def Config.itemAt (c : Config) (tn k : String) : Option ConfigItem :=
  if tn = "__GLOBAL__" then lookupKey c.global k
  else
    match lookupKey c.tables tn with
    | some tbl => lookupKey tbl k
    | none => none

/-- Scenario configuration for claim C2: current config with global item
`x` of declared type `uint` and default value `0`. -/
def c2_current : Config :=
  { global := [("x", ⟨"x", ⟨.int 0, some .uint⟩, ""⟩)], tables := [],
    table_comments := [] }

/-- Scenario configuration for claim C2: old config supplying `x = -5`. -/
def c2_old : Config :=
  { global := [("x", ⟨"x", ⟨.int (-5), none⟩, ""⟩)], tables := [],
    table_comments := [] }

/-- Receiving configuration for the merge counterexample of claim C3:
only the global key `b`. -/
def c3_left : Config :=
  { global := [("b", ⟨"b", ⟨.int 1, none⟩, ""⟩)], tables := [],
    table_comments := [] }

/-- Other configuration for the merge counterexample of claim C3: global
keys `a` and `b`; `a` is inserted before the duplicate `b` aborts the
merge. -/
def c3_right : Config :=
  { global := [("a", ⟨"a", ⟨.int 2, none⟩, ""⟩),
               ("b", ⟨"b", ⟨.int 3, none⟩, ""⟩)],
    tables := [], table_comments := [] }

/-- Current configuration for the update counterexample of claim C4: two
global keys `a` and `b`, both declared `uint`. -/
def c4_current : Config :=
  { global := [("a", ⟨"a", ⟨.int 0, some .uint⟩, ""⟩),
               ("b", ⟨"b", ⟨.int 0, some .uint⟩, ""⟩)],
    tables := [], table_comments := [] }

/-- Old configuration for the update counterexample of claim C4: `a` has a
boolean (not matching `uint`, aborting the update), `b` has `5` (matching
`uint`, but never reached). -/
def c4_old : Config :=
  { global := [("a", ⟨"a", ⟨.bool true, none⟩, ""⟩),
               ("b", ⟨"b", ⟨.int 5, none⟩, ""⟩)],
    tables := [], table_comments := [] }

/-- Witness configuration for claim C9: one global item and one named
table with one item. -/
def c9_config : Config :=
  { global := [("g", ⟨"g", ⟨.bool true, none⟩, ""⟩)],
    tables := [("t", [("k", ⟨"k", ⟨.int 7, none⟩, ""⟩)])],
    table_comments := [("t", "")] }

/-! ## Claims -/

/-- **C10.** No value matches the `Unknown` type: for every value `v` of
any kind (boolean, integer, string, or array), `value_type_matches v
Unknown` returns `false`. -/
theorem claim_C10 : ∀ v : Value, value_type_matches v .unknown = false := by
  intro v
  cases v with
  | bool b => rfl
  | int i => rfl
  | str s =>
      rw [value_type_matches]
      split_ifs <;> rfl
  | arr l => rfl
  | other => rfl

/-- **C1 (counterexample).** The claim "`match(v, infer(v))` is true for
every valid value" fails at `v = []`: the empty array is valid, its
inferred type is `Unknown`, and no value matches `Unknown`. -/
theorem claim_C1_counterexample :
    value_is_valid (.arr []) = true ∧
    inferred_type (.arr []) = .ok .unknown ∧
    value_type_matches (.arr []) .unknown = false := by
  decide

/-- **C1 (amended).** For every valid value `v` whose inferred type
contains no `Unknown` anywhere, type-matching the value against its own
inferred type succeeds. -/
theorem claim_C1 (v : Value) (t : ConfigType)
    (hvalid : value_is_valid v = true) (hinf : inferred_type v = .ok t)
    (huf : unknown_free t = true) : value_type_matches v t = true :=
  infer_matches v t hinf huf

theorem claim_C1_witness :
    value_is_valid (.arr [.int 1, .str "a"]) = true ∧
    inferred_type (.arr [.int 1, .str "a"]) = .ok (.tuple [.uint, .string]) ∧
    unknown_free (.tuple [.uint, .string]) = true ∧
    value_type_matches (.arr [.int 1, .str "a"])
      (.tuple [.uint, .string]) = true :=
  ⟨by decide, by decide, by decide,
    claim_C1 (.arr [.int 1, .str "a"]) (.tuple [.uint, .string])
      (by decide) (by decide) (by decide)⟩

/-- **C6 (code behaviour at the failing input).** For `[1, -1, []]` the
inference loop `break`s at the first non-uniform element (`-1`) before it
has checked the later elements for `Unknown`, so the array infers as
`Tuple(Uint, Int, Unknown)` instead of propagating `Unknown` as the spec
requires. -/
theorem claim_C6 :
    inferred_type (.arr [.int 1, .int (-1), .arr []]) =
      .ok (.tuple [.uint, .int, .unknown]) := by
  decide

/-- **C2 (counterexample).** In the spec's scenario — current item `x` of
declared type `Uint`, old configuration supplying `x = -5` — `update` does
NOT fail: `Integer` values match `Uint` without a sign check, so the update
succeeds and `x` becomes `-5`. -/
theorem claim_C2_counterexample :
    (Config.update c2_current c2_old).2 = none ∧
    lookupKey (Config.update c2_current c2_old).1.global "x" =
      some ⟨"x", ⟨.int (-5), some .uint⟩, ""⟩ := by
  decide

/-- **C2 (amended).** With current item `x` of declared type `Uint` and
old value `-5`, `update` succeeds (integer values match `Uint` regardless
of sign) and replaces `x`'s value with `-5`, retaining the declared type
`Uint`. -/
theorem claim_C2 :
    Config.update c2_current c2_old =
      ({ c2_current with
        global := [("x", ⟨"x", ⟨.int (-5), some .uint⟩, ""⟩)] }, none) ∧
    value_type_matches (.int (-5)) .uint = true := by
  decide

/-- **C3 (counterexample).** Merge is not atomic: merging `c3_right`
(keys `a`, `b`) into `c3_left` (key `b`) fails with a duplicate-key error,
yet the receiving configuration is not left as it was — `a` has already
been inserted. -/
theorem claim_C3_counterexample :
    (Config.merge c3_left c3_right).2.isSome = true ∧
    (Config.merge c3_left c3_right).1 ≠ c3_left := by
  decide

/-- **C3 (amended).** Merge and update are not atomic — on error, entries
processed before the failure remain — but they never destroy existing
data: merge never replaces a pre-existing value of the receiving
configuration (error or not), and update never alters an item without a
declared type (error or not). -/
theorem claim_C3 :
    (∀ (c o : Config) (k : String) (it : ConfigItem),
      lookupKey c.global k = some it →
      lookupKey (Config.merge c o).1.global k = some it) ∧
    (∀ (c o : Config) (tn : String) (tbl : ConfigTable) (k : String)
      (it : ConfigItem),
      lookupKey c.tables tn = some tbl → lookupKey tbl k = some it →
      ∃ tbl', lookupKey (Config.merge c o).1.tables tn = some tbl' ∧
        lookupKey tbl' k = some it) ∧
    (∀ (c o : Config) (k : String) (it : ConfigItem),
      lookupKey c.global k = some it → it.value.ty = none →
      lookupKey (Config.update c o).1.global k = some it) ∧
    (∀ (c o : Config) (tn : String) (tbl : ConfigTable) (k : String)
      (it : ConfigItem),
      lookupKey c.tables tn = some tbl → lookupKey tbl k = some it →
      it.value.ty = none →
      ∃ tbl', lookupKey (Config.update c o).1.tables tn = some tbl' ∧
        lookupKey tbl' k = some it) := by
  refine ⟨?_, ?_, ?_, ?_⟩
  · intro c o k it h
    exact mergeTables_global_preserves o.table_iter c k it h
  · intro c o tn tbl k it h1 h2
    exact mergeTables_table_preserves o.table_iter c tn tbl k it h1 h2
  · intro c o k it h hty
    rcases updateGo_global_evolve o.iter c k it h with ⟨it', h', he⟩
    rw [itemEvolve_untyped he hty] at h'
    exact h'
  · intro c o tn tbl k it h1 h2 hty
    rcases updateGo_tables_evolve o.iter c tn k tbl it h1 h2 with
      ⟨tbl', it', h1', h2', he⟩
    rw [itemEvolve_untyped he hty] at h2'
    exact ⟨tbl', h1', h2'⟩

theorem claim_C3_witness :
    lookupKey (Config.merge c3_left c3_right).1.global "b" =
      some ⟨"b", ⟨.int 1, none⟩, ""⟩ ∧
    lookupKey (Config.update c3_left c3_right).1.global "b" =
      some ⟨"b", ⟨.int 1, none⟩, ""⟩ :=
  ⟨claim_C3.1 c3_left c3_right "b" ⟨"b", ⟨.int 1, none⟩, ""⟩ (by decide),
   claim_C3.2.2.1 c3_left c3_right "b" ⟨"b", ⟨.int 1, none⟩, ""⟩ (by decide)
     (by decide)⟩

theorem iter_global_uniq (o : Config) (ho : Config.WF o) (k : String)
    (oit : ConfigItem) (hlo : lookupKey o.global k = some oit) :
    ∀ e ∈ Config.iter o, e.1 = "__GLOBAL__" → e.2.1 = k → e.2.2 = oit := by
  rintro ⟨t, k', x⟩ he h1 h2
  simp only [] at h1 h2
  subst h1
  subst h2
  have hmem := (iter_mem_global o k' x ho).mp he
  have := mem_lookupKey_of_nodup o.global k' x ho.1 hmem
  rw [hlo] at this
  injection this with h
  exact h.symm

theorem iter_named_uniq (o : Config) (ho : Config.WF o) (tn k : String)
    (oit : ConfigItem) (tblO : ConfigTable) (hng : tn ≠ "__GLOBAL__")
    (hlt : lookupKey o.tables tn = some tblO)
    (hlo : lookupKey tblO k = some oit) :
    ∀ e ∈ Config.iter o, e.1 = tn → e.2.1 = k → e.2.2 = oit := by
  rintro ⟨t, k', x⟩ he h1 h2
  simp only [] at h1 h2
  subst h1
  subst h2
  rcases (iter_mem_named o t k' x hng).mp he with ⟨tbl', hmt, hmk⟩
  have h1 := mem_lookupKey_of_nodup o.tables t tbl' ho.2.1 hmt
  rw [hlt] at h1
  injection h1 with h1
  subst h1
  have h2 := mem_lookupKey_of_nodup tblO k' x (ho.2.2 (t, tblO) hmt).1 hmk
  rw [hlo] at h2
  injection h2 with h2
  exact h2.symm

/-- **C4 (counterexample).** "Update replaces a typed item's value exactly
when Old's value matches" fails: in `c4_current`/`c4_old` the key `b`
matches its declared type `uint`, yet the update aborts earlier at `a` and
`b` keeps its default. -/
theorem claim_C4_counterexample :
    value_type_matches (.int 5) .uint = true ∧
    (Config.update c4_current c4_old).2 = some .valueTypeMismatch ∧
    lookupKey (Config.update c4_current c4_old).1.global "b" =
      some ⟨"b", ⟨.int 0, some .uint⟩, ""⟩ := by
  decide

/-- **C4 (amended).** Update is type-gated: items without a declared type
are never altered; any item update replaces a value only with a valid
value matching the item's declared type, retaining that type; and when
update returns success, every (table, key) pair present in both
configurations whose current item has a declared type `T` has adopted
Old's raw value, which matches `T`.  (When update fails, pairs processed
after the failing key keep their previous values, as the counterexample
shows.) -/
theorem claim_C4 :
    (∀ (c o : Config) (k : String) (it : ConfigItem),
      lookupKey c.global k = some it → it.value.ty = none →
      lookupKey (Config.update c o).1.global k = some it) ∧
    (∀ (c o : Config) (tn : String) (tbl : ConfigTable) (k : String)
      (it : ConfigItem),
      lookupKey c.tables tn = some tbl → lookupKey tbl k = some it →
      it.value.ty = none →
      ∃ tbl', lookupKey (Config.update c o).1.tables tn = some tbl' ∧
        lookupKey tbl' k = some it) ∧
    (∀ (c o : Config) (k : String) (it : ConfigItem),
      lookupKey c.global k = some it →
      ∃ it', lookupKey (Config.update c o).1.global k = some it' ∧
        itemEvolve it it') ∧
    (∀ (c o : Config) (tn : String) (tbl : ConfigTable) (k : String)
      (it : ConfigItem),
      lookupKey c.tables tn = some tbl → lookupKey tbl k = some it →
      ∃ tbl' it', lookupKey (Config.update c o).1.tables tn = some tbl' ∧
        lookupKey tbl' k = some it' ∧ itemEvolve it it') ∧
    (∀ (c o : Config), Config.WF c → Config.WF o →
      (Config.update c o).2 = none →
      ∀ (k : String) (oit it : ConfigItem) (ty : ConfigType),
      lookupKey o.global k = some oit → lookupKey c.global k = some it →
      it.value.ty = some ty →
      value_type_matches oit.value.value ty = true ∧
      lookupKey (Config.update c o).1.global k =
        some { it with value := ⟨oit.value.value, some ty⟩ }) ∧
    (∀ (c o : Config), Config.WF c → Config.WF o →
      (Config.update c o).2 = none →
      ∀ (tn k : String) (oit it : ConfigItem) (ty : ConfigType)
      (tblO tblC : ConfigTable),
      lookupKey o.tables tn = some tblO → lookupKey tblO k = some oit →
      lookupKey c.tables tn = some tblC → lookupKey tblC k = some it →
      it.value.ty = some ty →
      value_type_matches oit.value.value ty = true ∧
      ∃ tbl', lookupKey (Config.update c o).1.tables tn = some tbl' ∧
        lookupKey tbl' k =
          some { it with value := ⟨oit.value.value, some ty⟩ }) := by
  refine ⟨?_, ?_, ?_, ?_, ?_, ?_⟩
  · intro c o k it h hty
    rcases updateGo_global_evolve o.iter c k it h with ⟨it', h', he⟩
    rw [itemEvolve_untyped he hty] at h'
    exact h'
  · intro c o tn tbl k it h1 h2 hty
    rcases updateGo_tables_evolve o.iter c tn k tbl it h1 h2 with
      ⟨tbl', it', h1', h2', he⟩
    rw [itemEvolve_untyped he hty] at h2'
    exact ⟨tbl', h1', h2'⟩
  · intro c o k it h
    exact updateGo_global_evolve o.iter c k it h
  · intro c o tn tbl k it h1 h2
    exact updateGo_tables_evolve o.iter c tn k tbl it h1 h2
  · intro c o hc ho hnone k oit it ty hlo hlc hty
    have hmem : ("__GLOBAL__", k, oit) ∈ Config.iter o :=
      (iter_mem_global o k oit ho).mpr (lookupKey_mem o.global k oit hlo)
    rcases updateGo_global_adopt o.iter c k it ty oit hlc hty hmem
      (iter_global_uniq o ho k oit hlo) hnone with ⟨hm, _, hres⟩
    exact ⟨hm, hres⟩
  · intro c o hc ho hnone tn k oit it ty tblO tblC hlt hlo hlc hlk hty
    have hmt : (tn, tblO) ∈ o.tables := lookupKey_mem o.tables tn tblO hlt
    have hng : tn ≠ "__GLOBAL__" := (ho.2.2 (tn, tblO) hmt).2
    have hmem : (tn, k, oit) ∈ Config.iter o :=
      (iter_mem_named o tn k oit hng).mpr
        ⟨tblO, hmt, lookupKey_mem tblO k oit hlo⟩
    rcases updateGo_tables_adopt o.iter c tn k tblC it ty oit hng hlc hlk
      hty hmem (iter_named_uniq o ho tn k oit tblO hng hlt hlo) hnone with
      ⟨hm, _, hres⟩
    exact ⟨hm, hres⟩

theorem claim_C4_witness :
    value_type_matches (.int (-5)) .uint = true ∧
    lookupKey (Config.update c2_current c2_old).1.global "x" =
      some ⟨"x", ⟨.int (-5), some .uint⟩, ""⟩ :=
  claim_C4.2.2.2.2.1 c2_current c2_old (by decide) (by decide)
    (by decide) "x" ⟨"x", ⟨.int (-5), none⟩, ""⟩
    ⟨"x", ⟨.int 0, some .uint⟩, ""⟩ .uint (by decide) (by decide) (by decide)

theorem table_iter_names_nodup (o : Config) (ho : Config.WF o) :
    ((o.table_iter).map (fun x => x.1)).Nodup := by
  rw [Config.table_iter, List.map_cons, List.map_map]
  rw [List.nodup_cons]
  constructor
  · intro hmem
    rw [List.mem_map] at hmem
    rcases hmem with ⟨p, hp, he⟩
    exact (ho.2.2 p hp).2 he
  · have : ((fun x => x.1) ∘ fun p =>
        (p.1, p.2, (lookupKey o.table_comments p.1).getD "")) =
        (Prod.fst : String × ConfigTable → String) := by
      funext p
      rfl
    rw [this]
    exact ho.2.1

theorem table_iter_tables_nodup (o : Config) (ho : Config.WF o) :
    ∀ x ∈ o.table_iter, (x.2.1.map Prod.fst).Nodup := by
  intro x hx
  rw [Config.table_iter] at hx
  rcases List.mem_cons.mp hx with rfl | hx
  · exact ho.1
  · rw [List.mem_map] at hx
    rcases hx with ⟨p, hp, rfl⟩
    exact (ho.2.2 p hp).1

theorem global_not_mem_tables (o : Config) (ho : Config.WF o) :
    "__GLOBAL__" ∉ o.tables.map Prod.fst := by
  intro hmem
  rw [List.mem_map] at hmem
  rcases hmem with ⟨p, hp, he⟩
  exact (ho.2.2 p hp).2 he

/-- **C5.** Merge rejects duplicates and never overwrites: if both
configurations define the same key in the same table (or both in the
global table), `merge` fails with a duplicate-key error naming a key that
is defined in both configurations, and the receiving configuration's
existing item for the shared key is unchanged in the result. -/
theorem claim_C5 (c o : Config) (hc : Config.WF c) (ho : Config.WF o)
    (tn k : String) (hsh : sharedKeyAt c o tn k = true) :
    (∃ k' tn', (Config.merge c o).2 = some (dup_key_err k') ∧
      sharedKeyAt c o tn' k' = true) ∧
    Config.itemAt (Config.merge c o).1 tn k = Config.itemAt c tn k := by
  have hnames := table_iter_names_nodup o ho
  have htbls := table_iter_tables_nodup o ho
  constructor
  · -- the merge fails with a duplicate-key error naming a shared key
    have hsome : (Config.merge c o).2.isSome = true := by
      rw [sharedKeyAt] at hsh
      split_ifs at hsh with hg
      · subst hg
        rw [Bool.and_eq_true] at hsh
        refine mergeTables_errors_global o.table_iter c k hsh.1
          ⟨o.global, "", List.mem_cons_self _ _, ?_⟩
        exact (containsKey_iff_mem_keys o.global k).mp hsh.2
      · split at hsh
        · rename_i tblC tblO hlC hlO
          rw [Bool.and_eq_true] at hsh
          refine mergeTables_errors_named o.table_iter c tn k hg
            ⟨tblC, hlC, hsh.1⟩ ⟨tblO, (lookupKey o.table_comments tn).getD "",
              ?_, (containsKey_iff_mem_keys tblO k).mp hsh.2⟩
          rw [Config.table_iter]
          refine List.mem_cons_of_mem _ ?_
          exact List.mem_map.mpr ⟨(tn, tblO), lookupKey_mem o.tables tn tblO hlO, rfl⟩
        · cases hsh
    rw [Option.isSome_iff_exists] at hsome
    rcases hsome with ⟨e, he⟩
    rcases mergeTables_error_shape o.table_iter c e hnames htbls he with
      ⟨k', name, tblO', cm', rfl, hmem, hkO', hside⟩
    refine ⟨k', name, he, ?_⟩
    rcases hside with ⟨hnG, hcG⟩ | ⟨hnG, tblC', hlC', hcC'⟩
    · subst hnG
      have hglob : tblO' = o.global := by
        rw [Config.table_iter] at hmem
        rcases List.mem_cons.mp hmem with heq | hmem
        · simp only [Prod.mk.injEq] at heq
          exact heq.2.1
        · exfalso
          rw [List.mem_map] at hmem
          rcases hmem with ⟨p, hp, heq⟩
          injection heq with heq _
          exact (ho.2.2 p hp).2 heq
      subst hglob
      rw [sharedKeyAt, if_pos rfl, Bool.and_eq_true]
      exact ⟨hcG, (containsKey_iff_mem_keys o.global k').mpr hkO'⟩
    · have hoside : lookupKey o.tables name = some tblO' := by
        rw [Config.table_iter] at hmem
        rcases List.mem_cons.mp hmem with heq | hmem
        · injection heq with heq _
          exact absurd heq hnG
        · rw [List.mem_map] at hmem
          rcases hmem with ⟨p, hp, heq⟩
          injection heq with heq1 heq2
          injection heq2 with heq2 _
          subst heq1
          subst heq2
          rcases p with ⟨p1, p2⟩
          exact mem_lookupKey_of_nodup o.tables p1 p2 ho.2.1 hp
      rw [sharedKeyAt, if_neg hnG, hlC', hoside]
      simp only []
      rw [Bool.and_eq_true]
      exact ⟨hcC', (containsKey_iff_mem_keys tblO' k').mpr hkO'⟩
  · -- the shared item is preserved
    rw [sharedKeyAt] at hsh
    rw [Config.itemAt, Config.itemAt]
    split_ifs at hsh ⊢ with hg
    · rw [Bool.and_eq_true] at hsh
      have hck := hsh.1
      rw [containsKey, Option.isSome_iff_exists] at hck
      rcases hck with ⟨it, hit⟩
      rw [Config.merge, hit]
      exact mergeTables_global_preserves o.table_iter c k it hit
    · split at hsh
      · rename_i tblC tblO hlC hlO
        rw [Bool.and_eq_true] at hsh
        have hck := hsh.1
        rw [containsKey, Option.isSome_iff_exists] at hck
        rcases hck with ⟨it, hit⟩
        rcases mergeTables_table_preserves o.table_iter c tn tblC k it
          hlC hit with ⟨tbl', hl', hk'⟩
        rw [Config.merge, hl', hlC]
        simp only []
        rw [hk', hit]
      · cases hsh

theorem claim_C5_witness :
    sharedKeyAt c3_left c3_right "__GLOBAL__" "b" = true ∧
    (∃ k' tn', (Config.merge c3_left c3_right).2 = some (dup_key_err k') ∧
      sharedKeyAt c3_left c3_right tn' k' = true) ∧
    Config.itemAt (Config.merge c3_left c3_right).1 "__GLOBAL__" "b" =
      Config.itemAt c3_left "__GLOBAL__" "b" :=
  ⟨by decide,
    claim_C5 c3_left c3_right (by decide) (by decide) "__GLOBAL__" "b"
      (by decide)⟩

/-- **C7 (counterexample).** Rendering an item whose type would resolve to
`Unknown` does not fail in TOML format: the TOML writer never consults
types, so writing the untyped empty-array item `x` succeeds. -/
theorem claim_C7_counterexample :
    Output.write_item ⟨.toml, 0, ""⟩ ⟨"x", ⟨.arr [], none⟩, ""⟩ =
      .ok ⟨.toml, 0, "x = []\n"⟩ := by
  decide

/-- **C7 (amended).** In Rust output format — the format that resolves
item types — rendering an item whose resolved type is `Unknown` (declared
type absent and inference returning `Unknown`, e.g. for an empty array)
fails with an Unknown-type error naming that key; TOML-format rendering
does not consult types and succeeds. -/
theorem claim_C7 (o : Output) (item : ConfigItem) (hfmt : o.fmt = .rust)
    (hty : item.value.ty = none)
    (hinf : inferred_type item.value.value = .ok .unknown) :
    Output.write_item o item =
      .error (.other ("Unknown type for key `" ++ item.key ++ "`")) := by
  rcases o with ⟨fmt, ind, res⟩
  simp only [] at hfmt
  subst hfmt
  rw [Output.write_item]
  simp only []
  rw [hty]
  simp only []
  rw [hinf]
  simp only []
  simp

theorem claim_C7_witness :
    Output.write_item ⟨.rust, 0, ""⟩ ⟨"x", ⟨.arr [], none⟩, ""⟩ =
      .error (.other "Unknown type for key `x`") :=
  claim_C7 ⟨.rust, 0, ""⟩ ⟨"x", ⟨.arr [], none⟩, ""⟩ rfl rfl (by decide)

/-- **C8.** Type-expression parsing rejects malformed input with an
`InvalidType` error: unbalanced parentheses (`"(int,"`, `"(("`), a
trailing comma (`"(uint,)"`), an empty item between commas (`"(,)"`),
`"[]"` with no element type, and `"[uint,uint]"` with a depth-0 comma
inside brackets all fail, while `"()"` parses as the empty tuple. -/
theorem claim_C8 :
    ConfigType.new "(int,".data = .error .invalidType ∧
    ConfigType.new "((".data = .error .invalidType ∧
    ConfigType.new "(uint,)".data = .error .invalidType ∧
    ConfigType.new "(,)".data = .error .invalidType ∧
    ConfigType.new "[]".data = .error .invalidType ∧
    ConfigType.new "[uint,uint]".data = .error .invalidType ∧
    ConfigType.new "()".data = .ok (.tuple []) := by
  refine ⟨?_, ?_, ?_, ?_, ?_, ?_, ?_⟩
  · rw [ConfigType.new]
    simp [stripSpaces]
  · rw [ConfigType.new]
    simp [stripSpaces]
  · rw [ConfigType.new]
    simp [stripSpaces, split_tuple_items, splitGo]
  · rw [ConfigType.new]
    simp [stripSpaces, split_tuple_items, splitGo]
  · rw [ConfigType.new]
    simp [stripSpaces]
  · rw [ConfigType.new]
    simp [stripSpaces]
    rw [ConfigType.new]
    simp [stripSpaces, Except.map]
  · rw [ConfigType.new]
    simp [stripSpaces]

/-- **C9.** `Config::iter` yields every (key, item) pair of the global
table exactly twice — once directly and once via `table_iter`, whose first
entry is the global table again — while every named-table pair is yielded
exactly once. -/
theorem claim_C9 (c : Config) (h : Config.WF c) :
    (∀ (k : String) (it : ConfigItem), (k, it) ∈ c.global →
      (Config.iter c).count ("__GLOBAL__", k, it) = 2) ∧
    (∀ (tn : String) (tbl : ConfigTable) (k : String) (it : ConfigItem),
      (tn, tbl) ∈ c.tables → (k, it) ∈ tbl →
      (Config.iter c).count (tn, k, it) = 1) := by
  constructor
  · intro k it hmem
    rw [iter_structure, List.count_append, List.count_append]
    rw [count_map_entries, count_pair_of_nodup c.global k it h.1 hmem]
    rw [count_flat_zero c.tables "__GLOBAL__" k it (global_not_mem_tables c h)]
  · intro tn tbl k it hmt hmem
    have hng : tn ≠ "__GLOBAL__" := (h.2.2 (tn, tbl) hmt).2
    rw [iter_structure, List.count_append, List.count_append]
    rw [count_map_entries_ne c.global "__GLOBAL__" tn k it hng,
      count_flat_named c.tables tn tbl k it h.2.1 hmt
        ((h.2.2 (tn, tbl) hmt).1) hmem]

theorem claim_C9_witness :
    Config.WF c9_config ∧
    (Config.iter c9_config).count
      ("__GLOBAL__", "g", ⟨"g", ⟨.bool true, none⟩, ""⟩) = 2 ∧
    (Config.iter c9_config).count
      ("t", "k", ⟨"k", ⟨.int 7, none⟩, ""⟩) = 1 :=
  ⟨by decide,
    (claim_C9 c9_config (by decide)).1 "g" ⟨"g", ⟨.bool true, none⟩, ""⟩
      (by decide),
    (claim_C9 c9_config (by decide)).2 "t" [("k", ⟨"k", ⟨.int 7, none⟩, ""⟩)]
      "k" ⟨"k", ⟨.int 7, none⟩, ""⟩ (by decide) (by decide)⟩
